import Mathlib

/-!
# Verification of the fabric-auction-contracts auction engine

Shallow embedding, in Lean 4, of the Hyperledger Fabric chaincode in this
repository: the flat-keyed second-price auction
(`second_price_auction/contract.go`, and `second_price_auction_optimized/contract.go`
which is the same logic over composite keys), the flat-keyed English auction
(`english_auction/auction_contract.go`, with `english_auction/contract.go.go` and
`english_auction_optimized/contract.go` as behaviourally identical variants), and
the base contract (`auction_contract.go`).

Modelling conventions:
* The world state is one key space `String → Option StoredV`, as in Fabric.
  Resources live at key `resourceID`, auctions at key `"auction:" ++ resourceID`
  (the flat scheme of the non-optimized variants).
* `float64` prices and volumes are modelled as `ℚ` (only order comparisons are
  performed on them), `int64` timestamps as `Int` (the wrap-around at `2^63`
  is not exercised: all compared quantities stay far below it).
* `json.Unmarshal` into a struct is lenient: decoding a value of the other
  record kind succeeds and yields the zero value of the target struct, because
  the two kinds share no JSON field name.  `decodeRes` / `decodeAuc` model this.
* A chaincode invocation that returns an error is not endorsed, so none of its
  writes persist.  Each operation is therefore `... → Except Err State`: an
  `Except.error` result means the pre-state is kept unchanged.
* `Err` has one constructor per distinct error message of the Go code;
  `Err.isInvalidState` groups the constructors the specification's taxonomy
  calls `InvalidState`.
* Go's `sort.Slice` (Go ≥ 1.19 pdqsort) is translated in the `GoSort`
  section below: slices of at most twelve elements take the plain
  insertion-sort path, whose net effect is the stable sort and which is
  modelled by `List.insertionSort` with the corresponding non-strict
  relation; longer slices run the pdqsort partitioning scheme, translated
  index by index, which reorders elements that compare equal.
-/

inductive Err where
  | alreadyExists
  | notFound
  | alreadyActive
  | notAvailable
  | notActive
  | notExpired
  | expired
  | belowReserve
  | belowHighest
  | noBids
deriving Repr, DecidableEq

/-- The error kinds the specification's taxonomy groups under `InvalidState`:
auction already active, resource not available, auction not active
(also: already closed), auction not yet expired. -/
def Err.isInvalidState : Err → Bool
  | .alreadyActive | .notAvailable | .notActive | .notExpired => true
  | _ => false

instance {ε α : Type} [DecidableEq ε] [DecidableEq α] : DecidableEq (Except ε α) := fun x y =>
  match x, y with
  | .error e, .error e' =>
      if h : e = e' then .isTrue (by rw [h]) else .isFalse (by intro hc; cases hc; exact h rfl)
  | .ok a, .ok a' =>
      if h : a = a' then .isTrue (by rw [h]) else .isFalse (by intro hc; cases hc; exact h rfl)
  | .error _, .ok _ => .isFalse (by intro hc; cases hc)
  | .ok _, .error _ => .isFalse (by intro hc; cases hc)

/-- `EnergyResource` record (identical struct in all variants except the base
contract, which lacks the two booleans): `volume`, `price` (reserve), `type`,
`isAvailable`, `auctionStatus`. -/
structure EnergyResource where
  volume : ℚ
  price : ℚ
  type : String
  isAvailable : Bool
  auctionStatus : Bool
deriving Repr, DecidableEq

/-- Flat key of the auction record for a resource: `"auction:" + resourceID`. -/
def auctionKey (rid : String) : String := "auction:" ++ rid

/-! ### Go `sort.Slice`

Both contracts sort with `sort.Slice`, which is documented as *not* stable.
Since Go 1.19 it runs `pdqsort`: a slice of at most 12 elements is handled by
a plain insertion sort (which does keep elements comparing equal in their
original order), anything longer enters the pattern-defeating-quicksort
partitioning scheme, which reorders equal elements.  The functions below
translate that algorithm (`sort.Slice` → `pdqsort_func` and its helpers)
index by index, over a `List` carrying the slice contents and a strict
comparison `less`.  Conventions:
* `data.Less(i, j)` / `data.Swap(i, j)` become `lessAt` / `swapIdx`;
  out-of-range indices read `false` / leave the list unchanged (Go would
  panic; every reachable call is in range).
* Go's `int` indices are `Nat`.  The only place an index could go negative
  is the `j--` retreat loop of `partition`, reached with `i ≥ a+1 ≥ 1`, where
  Go also stops at `j = a ≥ 0`; the `Nat` floor at 0 agrees with it there.
* each `for` loop is structural recursion, on its own decreasing index where
  it has one, otherwise on an explicit bound exceeding its iteration count
  (`pdqsortLoop` shrinks `b - a` every iteration, so `length + 1` suffices).
* `insertionSort_func data a b` sorts `data[a:b)` by adjacent swaps that move
  each element left past strictly greater elements; its net effect on the
  segment is the stable sort of the segment, modelled by
  `List.insertionSort` (`insertionSortRange`).
-/

section GoSort

variable {α : Type}

/-- `data.Less(i, j)`. -/
def lessAt (less : α → α → Bool) (l : List α) (i j : Nat) : Bool :=
  match l.get? i, l.get? j with
  | some x, some y => less x y
  | _, _ => false

/-- `data.Swap(i, j)`. -/
def swapIdx (l : List α) (i j : Nat) : List α :=
  match l.get? i, l.get? j with
  | some x, some y => (l.set i y).set j x
  | _, _ => l

/-- The order a stable sort with strict comparison `less` realizes: `x` may
stay before `y` exactly when `less y x` is false. -/
def goStableOf (less : α → α → Bool) : α → α → Prop := fun x y => less y x = false

instance (less : α → α → Bool) : DecidableRel (goStableOf less) := fun x y =>
  inferInstanceAs (Decidable (less y x = false))

/-- `insertionSort_func(data, a, b)`: the stable sort of the segment
`data[a:b)`, in place. -/
def insertionSortRange (less : α → α → Bool) (l : List α) (a b : Nat) : List α :=
  l.take a ++ List.insertionSort (goStableOf less) ((l.drop a).take (b - a))
    ++ l.drop (a + (b - a))

/-- `siftDown_func(data, root, hi, first)` (fuel `hi` bounds the descent). -/
def siftDownGo (less : α → α → Bool) : Nat → List α → Nat → Nat → Nat → List α
  | 0, l, _, _, _ => l
  | fuel+1, l, root, hi, first =>
      let child := 2*root + 1
      if child ≥ hi then l
      else
        let child2 := if child+1 < hi ∧ lessAt less l (first+child) (first+child+1)
          then child+1 else child
        if lessAt less l (first+root) (first+child2) = false then l
        else siftDownGo less fuel (swapIdx l (first+root) (first+child2)) child2 hi first

/-- `heapSort_func`, build phase: roots `k-1, …, 0`. -/
def heapBuild (less : α → α → Bool) : Nat → List α → Nat → Nat → List α
  | 0, l, _, _ => l
  | k+1, l, hi, first => heapBuild less k (siftDownGo less hi l k hi first) hi first

/-- `heapSort_func`, pop phase: `i = k-1, …, 0`. -/
def heapPop (less : α → α → Bool) : Nat → List α → Nat → List α
  | 0, l, _ => l
  | k+1, l, first =>
      heapPop less k (siftDownGo less k (swapIdx l first (first+k)) 0 k first) first

def heapSortRange (less : α → α → Bool) (l : List α) (a b : Nat) : List α :=
  let hi := b - a
  heapPop less hi (heapBuild less ((hi - 1)/2 + 1) l hi a) a

/-- `reverseRange_func` on `[i, j]` inclusive (the fuel, `j + 1` at call
sites, exceeds the iteration count). -/
def reverseRangeGo : Nat → List α → Nat → Nat → List α
  | 0, l, _, _ => l
  | fuel+1, l, i, j => if i < j then reverseRangeGo fuel (swapIdx l i j) (i+1) (j-1) else l

/-- `bits.Len` on a 64-bit length. -/
def bitsLenAux : Nat → Nat → Nat
  | 0, _ => 0
  | fuel+1, n => if n = 0 then 0 else bitsLenAux fuel (n / 2) + 1

def bitsLen (n : Nat) : Nat := bitsLenAux 64 n

/-- The xorshift step of `sort`'s pattern breaker, on 64 bits. -/
def xorshiftNext (r : Nat) : Nat :=
  let r1 := (Nat.xor r ((r <<< 13) % 2^64)) % 2^64
  let r2 := (Nat.xor r1 (r1 >>> 7)) % 2^64
  (Nat.xor r2 ((r2 <<< 17) % 2^64)) % 2^64

/-- `breakPatterns_func`: scatter three elements (three unrolled loop
iterations, random state seeded with the length). -/
def breakPatternsGo (l : List α) (a b : Nat) : List α :=
  let len := b - a
  if len ≥ 8 then
    let modulus := 2 ^ (bitsLen len)
    let idx := a + (len / 4) * 2 - 1
    let r1 := xorshiftNext len
    let o1 := let o := Nat.land r1 (modulus - 1); if o ≥ len then o - len else o
    let l1 := swapIdx l (idx - 1) (a + o1)
    let r2 := xorshiftNext r1
    let o2 := let o := Nat.land r2 (modulus - 1); if o ≥ len then o - len else o
    let l2 := swapIdx l1 idx (a + o2)
    let r3 := xorshiftNext r2
    let o3 := let o := Nat.land r3 (modulus - 1); if o ≥ len then o - len else o
    swapIdx l2 (idx + 1) (a + o3)
  else l

inductive SortedHint where
  | unknown
  | increasing
  | decreasing
deriving Repr, DecidableEq

/-- `order2_func`: virtually order two indices, counting a swap. -/
def order2Go (less : α → α → Bool) (l : List α) (a b swaps : Nat) : Nat × Nat × Nat :=
  if lessAt less l b a then (b, a, swaps + 1) else (a, b, swaps)

/-- `median_func` of three indices, returning the median and the swap count. -/
def medianGo (less : α → α → Bool) (l : List α) (a b c swaps : Nat) : Nat × Nat :=
  let r1 := order2Go less l a b swaps
  let r2 := order2Go less l r1.2.1 c r1.2.2
  let r3 := order2Go less l r1.1 r2.1 r2.2.2
  (r3.2.1, r3.2.2)

/-- `medianAdjacent_func`. -/
def medianAdjacentGo (less : α → α → Bool) (l : List α) (a swaps : Nat) : Nat × Nat :=
  medianGo less l (a-1) a (a+1) swaps

/-- `choosePivot_func`: static pivot below 8 elements, median of three up to
49, Tukey ninther beyond; the swap count yields the sortedness hint. -/
def choosePivotGo (less : α → α → Bool) (l : List α) (a b : Nat) : Nat × SortedHint :=
  let len := b - a
  let i0 := a + len / 4 * 1
  let j0 := a + len / 4 * 2
  let k0 := a + len / 4 * 3
  if len ≥ 8 then
    let step :=
      if len ≥ 50 then
        let mi := medianAdjacentGo less l i0 0
        let mj := medianAdjacentGo less l j0 mi.2
        let mk := medianAdjacentGo less l k0 mj.2
        (mi.1, mj.1, mk.1, mk.2)
      else (i0, j0, k0, 0)
    let m := medianGo less l step.1 step.2.1 step.2.2.1 step.2.2.2
    if m.2 = 0 then (m.1, SortedHint.increasing)
    else if m.2 = 12 then (m.1, SortedHint.decreasing)
    else (m.1, SortedHint.unknown)
  else (j0, SortedHint.increasing)

/-- `partialInsertionSort_func`: advance past in-order pairs (the bound `b`
of fuel exceeds the remaining iterations). -/
def painAdvance (less : α → α → Bool) (l : List α) (b : Nat) : Nat → Nat → Nat
  | 0, i => i
  | fuel+1, i => if i < b ∧ lessAt less l i (i-1) = false then painAdvance less l b fuel (i+1)
                 else i

/-- `partialInsertionSort_func`: shift the smaller element left
(`j ≥ 1` is the `j = 0` base case). -/
def painShiftLeft (less : α → α → Bool) : List α → Nat → List α
  | l, 0 => l
  | l, j+1 => if lessAt less l (j+1) j then painShiftLeft less (swapIdx l (j+1) j) j else l

/-- `partialInsertionSort_func`: shift the greater element right (fuel `b`
exceeds the remaining iterations). -/
def painShiftRight (less : α → α → Bool) (b : Nat) : Nat → List α → Nat → List α
  | 0, l, _ => l
  | fuel+1, l, j => if j < b ∧ lessAt less l j (j-1)
                    then painShiftRight less b fuel (swapIdx l j (j-1)) (j+1) else l

/-- `partialInsertionSort_func`: at most five out-of-order repairs; below 50
elements nothing is shifted. -/
def painSteps (less : α → α → Bool) (a b : Nat) : Nat → List α → Nat → List α × Bool
  | 0, l, _ => (l, false)
  | steps+1, l, i =>
      let i2 := painAdvance less l b b i
      if i2 = b then (l, true)
      else if b - a < 50 then (l, false)
      else
        let l1 := swapIdx l i2 (i2-1)
        let l2 := if i2 - a ≥ 2 then painShiftLeft less l1 (i2-1) else l1
        let l3 := if b - i2 ≥ 2 then painShiftRight less b b l2 (i2+1) else l2
        painSteps less a b steps l3 i2

def partialInsertionSortGo (less : α → α → Bool) (l : List α) (a b : Nat) : List α × Bool :=
  painSteps less a b 5 l (a+1)

/-- `partition_func`: advance `i` while `data[i] < pivot` (fuel `j + 2`
exceeds the remaining iterations). -/
def partAdvanceI (less : α → α → Bool) (l : List α) (a j : Nat) : Nat → Nat → Nat
  | 0, i => i
  | fuel+1, i => if i ≤ j ∧ lessAt less l i a then partAdvanceI less l a j fuel (i+1) else i

/-- `partition_func`: retreat `j` while `¬ data[j] < pivot`. -/
def partRetreatJ (less : α → α → Bool) (l : List α) (a i : Nat) : Nat → Nat
  | 0 => 0
  | j+1 => if i ≤ j+1 ∧ lessAt less l (j+1) a = false then partRetreatJ less l a i j
           else j+1

/-- `partition_func`'s main swap loop (fuel `b` bounds the iterations, since
`i` strictly grows and stays below `b`). -/
def partitionLoop (less : α → α → Bool) (a : Nat) : Nat → List α → Nat → Nat → List α × Nat
  | 0, l, _, j => (l, j)
  | fuel+1, l, i, j =>
      let i2 := partAdvanceI less l a j (j+2) i
      let j2 := partRetreatJ less l a i2 j
      if i2 > j2 then (l, j2)
      else partitionLoop less a fuel (swapIdx l i2 j2) (i2+1) (j2-1)

/-- `partition_func(data, a, b, pivot) → (newpivot, data, alreadyPartitioned)`. -/
def partitionGo (less : α → α → Bool) (l : List α) (a b pivot : Nat) :
    Nat × List α × Bool :=
  let l0 := swapIdx l a pivot
  let j0 := b - 1
  let i1 := partAdvanceI less l0 a j0 (j0+2) (a + 1)
  let j1 := partRetreatJ less l0 a i1 j0
  if i1 > j1 then (j1, swapIdx l0 j1 a, true)
  else
    let l1 := swapIdx l0 i1 j1
    let lj := partitionLoop less a b l1 (i1+1) (j1-1)
    (lj.2, swapIdx lj.1 lj.2 a, false)

/-- `partitionEqual_func`: advance `i` while `¬ pivot < data[i]` (fuel
`j + 2` exceeds the remaining iterations). -/
def peqAdvanceI (less : α → α → Bool) (l : List α) (a j : Nat) : Nat → Nat → Nat
  | 0, i => i
  | fuel+1, i => if i ≤ j ∧ lessAt less l a i = false then peqAdvanceI less l a j fuel (i+1)
                 else i

/-- `partitionEqual_func`: retreat `j` while `pivot < data[j]`. -/
def peqRetreatJ (less : α → α → Bool) (l : List α) (a i : Nat) : Nat → Nat
  | 0 => 0
  | j+1 => if i ≤ j+1 ∧ lessAt less l a (j+1) then peqRetreatJ less l a i j else j+1

/-- `partitionEqual_func`'s swap loop, returning the final `i`. -/
def peqLoop (less : α → α → Bool) (a : Nat) : Nat → List α → Nat → Nat → List α × Nat
  | 0, l, i, _ => (l, i)
  | fuel+1, l, i, j =>
      let i2 := peqAdvanceI less l a j (j+2) i
      let j2 := peqRetreatJ less l a i2 j
      if i2 > j2 then (l, i2)
      else peqLoop less a fuel (swapIdx l i2 j2) (i2+1) (j2-1)

/-- `partitionEqual_func(data, a, b, pivot) → (newpivot, data)`. -/
def partitionEqualGo (less : α → α → Bool) (l : List α) (a b pivot : Nat) :
    Nat × List α :=
  let l0 := swapIdx l a pivot
  let li := peqLoop less a b l0 (a+1) (b-1)
  (li.2, li.1)

/-- `pdqsort_func(data, a, b, limit)` with its local `wasBalanced` /
`wasPartitioned` state; the fuel bounds loop iterations and recursion depth,
each of which shrinks `b - a`. -/
def pdqsortLoop (less : α → α → Bool) :
    Nat → List α → Nat → Nat → Nat → Bool → Bool → List α
  | 0, l, _, _, _, _, _ => l
  | fuel+1, l, a, b, limit, wasBalanced, wasPartitioned =>
      let len := b - a
      if len ≤ 12 then insertionSortRange less l a b
      else if limit = 0 then heapSortRange less l a b
      else
        let l1 := if !wasBalanced then breakPatternsGo l a b else l
        let limit1 := if !wasBalanced then limit - 1 else limit
        let ph := choosePivotGo less l1 a b
        let l2 := if ph.2 = SortedHint.decreasing then reverseRangeGo b l1 a (b - 1) else l1
        let pivot1 := if ph.2 = SortedHint.decreasing then (b - 1) - (ph.1 - a) else ph.1
        let hint1 := if ph.2 = SortedHint.decreasing then SortedHint.increasing else ph.2
        let pis := if wasBalanced ∧ wasPartitioned ∧ hint1 = SortedHint.increasing
          then partialInsertionSortGo less l2 a b else (l2, false)
        if pis.2 then pis.1
        else
          let l3 := pis.1
          if a > 0 ∧ lessAt less l3 (a-1) pivot1 = false then
            let pe := partitionEqualGo less l3 a b pivot1
            pdqsortLoop less fuel pe.2 pe.1 b limit1 wasBalanced wasPartitioned
          else
            let pt := partitionGo less l3 a b pivot1
            let mid := pt.1
            let l4 := pt.2.1
            let leftLen := mid - a
            let rightLen := b - mid
            let wasBalanced2 := decide (min leftLen rightLen ≥ len / 8)
            if leftLen < rightLen then
              pdqsortLoop less fuel (pdqsortLoop less fuel l4 a mid limit1 true true)
                (mid+1) b limit1 wasBalanced2 pt.2.2
            else
              pdqsortLoop less fuel (pdqsortLoop less fuel l4 (mid+1) b limit1 true true)
                a mid limit1 wasBalanced2 pt.2.2

/-- `sort.Slice`: at most 12 elements — the stable insertion sort; more —
pdqsort with `limit = bits.Len(length)`. -/
def goSortSlice (less : α → α → Bool) (l : List α) : List α :=
  if l.length ≤ 12 then List.insertionSort (goStableOf less) l
  else pdqsortLoop less (l.length + 1) l 0 l.length (bitsLen l.length) true true

end GoSort

namespace SP

/-- `Bid` struct of `second_price_auction/contract.go`. -/
structure Bid where
  bidID : String
  resourceID : String
  bidder : String
  bidPrice : ℚ
  timestamp : Int
deriving Repr, DecidableEq

/-- `EnergyAuction` struct of `second_price_auction/contract.go`
(`second_price_auction_optimized` has the same struct without `auctionID`,
which no operation ever reads). -/
structure Auction where
  auctionID : String
  resourceID : String
  deadline : Int
  bids : List Bid
  winnerID : String
  winnerPrice : ℚ
  isActive : Bool
deriving Repr, DecidableEq

/-- A value in the world state is the serialization of one of the two record
kinds. -/
inductive StoredV where
  | res (r : EnergyResource)
  | auc (a : Auction)
deriving Repr, DecidableEq

/-- `json.Unmarshal` of a stored value into `EnergyResource`: an auction JSON
shares no field name with the resource struct, so it decodes to the zero
resource. -/
def decodeRes : StoredV → EnergyResource
  | .res r => r
  | .auc _ => ⟨0, 0, "", false, false⟩

/-- `json.Unmarshal` of a stored value into `EnergyAuction`: a resource JSON
shares no field name with the auction struct, so it decodes to the zero
auction. -/
def decodeAuc : StoredV → Auction
  | .auc a => a
  | .res _ => ⟨"", "", 0, [], "", 0, false⟩

def State : Type := String → Option StoredV

/-- `PutState`. -/
def State.put (s : State) (k : String) (v : StoredV) : State :=
  fun k' => if k' = k then some v else s k'

/-- `fetchResource`: `GetState(resourceID)`, `NotFound` when absent, lenient
unmarshal otherwise. -/
def fetchResource (s : State) (rid : String) : Except Err EnergyResource :=
  match s rid with
  | none => .error .notFound
  | some v => .ok (decodeRes v)

/-- `fetchAuction`: `GetState("auction:" + resourceID)`. -/
def fetchAuction (s : State) (rid : String) : Except Err Auction :=
  match s (auctionKey rid) with
  | none => .error .notFound
  | some v => .ok (decodeAuc v)

/-- `SubmitEnergyResource` (`second_price_auction/contract.go:42-56`):
fail when a record exists at `resourceID`, else store the new resource with
`isAvailable = true`, `auctionStatus = false`. -/
def submitEnergyResource (s : State) (rid : String) (vol price : ℚ) (ty : String) :
    Except Err State :=
  match s rid with
  | some _ => .error .alreadyExists
  | none => .ok (s.put rid (.res ⟨vol, price, ty, true, false⟩))

/-- `StartAuction` (`second_price_auction/contract.go:95-127`): requires the
resource to exist, `auctionStatus = false` and `isAvailable = true`; stores a
fresh active auction with `deadline = now + duration` and flips
`auctionStatus`.  No validation of `duration`. -/
def startAuction (s : State) (rid : String) (duration now : Int) : Except Err State :=
  match fetchResource s rid with
  | .error e => .error e
  | .ok r =>
    if r.auctionStatus then .error .alreadyActive
    else if !r.isAvailable then .error .notAvailable
    else
      let a : Auction := ⟨"", rid, now + duration, [], "", 0, true⟩
      let s1 := s.put rid (.res { r with auctionStatus := true })
      .ok (s1.put (auctionKey rid) (.auc a))

/-- `GetAuction` (`second_price_auction/contract.go:129-146`): returns the
stored auction, with `bids` blanked exactly when `deadline > now`. -/
def getAuction (s : State) (rid : String) (now : Int) : Except Err Auction :=
  match fetchAuction s rid with
  | .error e => .error e
  | .ok a => if a.deadline > now then .ok { a with bids := [] } else .ok a

/-- `fmt.Sprintf("%s:%s:%d", auctionID, clientID, currentTimestamp.Seconds)`
with `auctionID = "auction:" + resourceID`. -/
def mkBidID (rid caller : String) (now : Int) : String :=
  auctionKey rid ++ ":" ++ caller ++ ":" ++ toString now

/-- `sort.Slice(auction.Bids, func(i, j) { return Bids[i].BidPrice >
Bids[j].BidPrice })`: stable only up to 12 bids (see the module comment). -/
def sortBidsDesc (l : List Bid) : List Bid :=
  goSortSlice (fun x y => decide (y.bidPrice < x.bidPrice)) l

/-- `EndAuction` (`second_price_auction/contract.go:195-243`): requires
`isActive` and `deadline ≤ now`; sorts the bids descending by price, closes
the auction, clears the resource's `auctionStatus`, and when at least one bid
exists marks the resource unavailable and sets `winnerID` to the top bidder
and `winnerPrice` to the second price (or the single bid's own price). -/
def endAuction (s : State) (rid : String) (now : Int) : Except Err State :=
  match fetchAuction s rid with
  | .error e => .error e
  | .ok a =>
    if !a.isActive then .error .notActive
    else if a.deadline > now then .error .notExpired
    else
      match fetchResource s a.resourceID with
      | .error e => .error e
      | .ok r =>
        match sortBidsDesc a.bids with
        | [] =>
            let a' := { a with bids := ([] : List Bid), isActive := false }
            let s1 := s.put a.resourceID (.res { r with auctionStatus := false })
            .ok (s1.put (auctionKey rid) (.auc a'))
        | b0 :: rest =>
            let wp := match rest with
              | [] => b0.bidPrice
              | b1 :: _ => b1.bidPrice
            let a' := { a with bids := b0 :: rest, isActive := false,
                               winnerID := b0.bidder, winnerPrice := wp }
            let s1 := s.put a.resourceID
              (.res { r with auctionStatus := false, isAvailable := false })
            .ok (s1.put (auctionKey rid) (.auc a'))

/-- `Bid` (`second_price_auction/contract.go:148-193`): fetches auction and
resource, rejects `bidAmount ≤ resource.Price` *before* the activity and
deadline checks, performs the lazy-expiry `EndAuction` when
`deadline < now`, otherwise appends the new bid record. -/
def bid (s : State) (rid : String) (amt : ℚ) (caller : String) (now : Int) :
    Except Err State :=
  match fetchAuction s rid with
  | .error e => .error e
  | .ok a =>
    match fetchResource s rid with
    | .error e => .error e
    | .ok r =>
      if amt ≤ r.price then .error .belowReserve
      else if !a.isActive then .error .notActive
      else if a.deadline < now then endAuction s rid now
      else
        let b : Bid := ⟨mkBidID rid caller now, rid, caller, amt, now⟩
        .ok (s.put (auctionKey rid) (.auc { a with bids := a.bids ++ [b] }))

end SP

namespace EN

/-- `EnergyAuction` struct of `english_auction/auction_contract.go`. -/
structure Auction where
  auctionID : String
  resourceID : String
  deadline : Int
  highestBid : ℚ
  highestBidder : String
  isActive : Bool
deriving Repr, DecidableEq

inductive StoredV where
  | res (r : EnergyResource)
  | auc (a : Auction)
deriving Repr, DecidableEq

/-- Lenient `json.Unmarshal` into `EnergyResource` (no shared field names). -/
def decodeRes : StoredV → EnergyResource
  | .res r => r
  | .auc _ => ⟨0, 0, "", false, false⟩

/-- Lenient `json.Unmarshal` into `EnergyAuction`. -/
def decodeAuc : StoredV → Auction
  | .auc a => a
  | .res _ => ⟨"", "", 0, 0, "", false⟩

def State : Type := String → Option StoredV

def State.put (s : State) (k : String) (v : StoredV) : State :=
  fun k' => if k' = k then some v else s k'

def fetchResource (s : State) (rid : String) : Except Err EnergyResource :=
  match s rid with
  | none => .error .notFound
  | some v => .ok (decodeRes v)

def fetchAuction (s : State) (rid : String) : Except Err Auction :=
  match s (auctionKey rid) with
  | none => .error .notFound
  | some v => .ok (decodeAuc v)

/-- `SubmitEnergyResource` (`english_auction/auction_contract.go:33-58`). -/
def submitEnergyResource (s : State) (rid : String) (vol price : ℚ) (ty : String) :
    Except Err State :=
  match s rid with
  | some _ => .error .alreadyExists
  | none => .ok (s.put rid (.res ⟨vol, price, ty, true, false⟩))

/-- `StartAuction` (`english_auction/auction_contract.go:103-158`): requires
the resource to exist, `auctionStatus = false`, `isAvailable = true`; no
validation of `duration`. -/
def startAuction (s : State) (rid : String) (duration now : Int) : Except Err State :=
  match fetchResource s rid with
  | .error e => .error e
  | .ok r =>
    if r.auctionStatus then .error .alreadyActive
    else if !r.isAvailable then .error .notAvailable
    else
      let a : Auction := ⟨"", rid, now + duration, 0, "", true⟩
      let s1 := s.put rid (.res { r with auctionStatus := true })
      .ok (s1.put (auctionKey rid) (.auc a))

/-- `EndAuction` (`english_auction/auction_contract.go:249-329`): requires
`isActive` and `deadline ≤ now`; closes the auction, clears `auctionStatus`,
and sets `isAvailable = false` exactly when `highestBidder` is non-empty.
The Go code writes the auction record, then the resource record, then the
auction record again; an error while fetching the resource aborts the
transaction, discarding the earlier auction write, which the `Except`
threading models by erroring before any write. -/
def endAuction (s : State) (rid : String) (now : Int) : Except Err State :=
  match fetchAuction s rid with
  | .error e => .error e
  | .ok a =>
    if !a.isActive then .error .notActive
    else if a.deadline > now then .error .notExpired
    else
      let a' := { a with isActive := false }
      match fetchResource s a.resourceID with
      | .error e => .error e
      | .ok r =>
        let r' := { r with auctionStatus := false,
                           isAvailable := if a.highestBidder != "" then false
                                          else r.isAvailable }
        .ok ((((s.put (auctionKey rid) (.auc a')).put a.resourceID (.res r')).put
          (auctionKey rid) (.auc a')))

/-- `Bid` (`english_auction/auction_contract.go:176-247`): after the existence
and activity checks, the lazy-expiry branch (`deadline < now` ⇒ `EndAuction`)
runs *before* the amount checks; an accepted bid overwrites
`highestBid`/`highestBidder`. -/
def bid (s : State) (rid : String) (amt : ℚ) (caller : String) (now : Int) :
    Except Err State :=
  match fetchAuction s rid with
  | .error e => .error e
  | .ok a =>
    match fetchResource s rid with
    | .error e => .error e
    | .ok r =>
      if !a.isActive then .error .notActive
      else if a.deadline < now then endAuction s rid now
      else if amt ≤ r.price then .error .belowReserve
      else if amt ≤ a.highestBid then .error .belowHighest
      else
        .ok (s.put (auctionKey rid)
          (.auc { a with highestBid := amt, highestBidder := caller }))

/-- The state-mutating operation surface of the English contract (the read
operations `GetResource`, `GetMeritOrder`, `GetAuction` issue no writes). -/
inductive Op where
  | submit (rid : String) (vol price : ℚ) (ty : String)
  | start (rid : String) (duration : Int)
  | bidOp (rid : String) (amt : ℚ) (caller : String)
  | endA (rid : String)

/-- Dispatch one invocation at transaction time `now`. -/
def apply (s : State) (op : Op) (now : Int) : Except Err State :=
  match op with
  | .submit rid vol price ty => submitEnergyResource s rid vol price ty
  | .start rid duration => startAuction s rid duration now
  | .bidOp rid amt caller => bid s rid amt caller now
  | .endA rid => endAuction s rid now

/-- One invocation as a total state transformer: a failed transaction is not
endorsed and leaves the world state unchanged. -/
def step (s : State) (op : Op) (now : Int) : State :=
  match apply s op now with
  | .ok s' => s'
  | .error _ => s

/-- A sequence of invocations, each with its transaction time. -/
def run (s : State) : List (Op × Int) → State
  | [] => s
  | p :: ps => run (step s p.1 p.2) ps

/-- The `isAvailable` flag an observer reads for key `k` (lenient decode). -/
def availAt (s : State) (k : String) : Option Bool :=
  (s k).map (fun v => (decodeRes v).isAvailable)

/-- `GetMeritOrder` (`english_auction/auction_contract.go:74-101`): the range
scan `GetStateByRange("", "")` yields *every* stored value in key order;
`scan` is that sequence.  Each value — auction records included — is decoded
as an `EnergyResource`, then the list is sorted with
`sort.Slice(resources, Price ascending)`. -/
def getMeritOrder (scan : List StoredV) : List EnergyResource :=
  goSortSlice (fun x y => decide (x.price < y.price)) (scan.map decodeRes)

end EN

namespace ENO

/-- `GetMeritOrder` (`english_auction_optimized/contract.go:75-102`): the scan
`GetStateByPartialCompositeKey("resource", [])` yields exactly the values
stored under resource composite keys, in key order — all of them resource
records; `scan` is that sequence.  Sorted with
`sort.Slice(resources, Price ascending)`. -/
def getMeritOrder (scan : List EnergyResource) : List EnergyResource :=
  goSortSlice (fun x y => decide (x.price < y.price)) scan

end ENO

namespace Base

/-- `EnergyResource` struct of the base contract `auction_contract.go`: no
`isAvailable`, no `auctionStatus`. -/
structure Resource where
  volume : ℚ
  price : ℚ
  type : String
deriving Repr, DecidableEq

/-- `EnergyAuction` struct of `auction_contract.go`; stored under the
caller-supplied `auctionID`. -/
structure Auction where
  auctionID : String
  resourceID : String
  deadline : Int
  highestBid : ℚ
  highestBidder : String
  isActive : Bool
deriving Repr, DecidableEq

inductive StoredV where
  | res (r : Resource)
  | auc (a : Auction)
deriving Repr, DecidableEq

def decodeAuc : StoredV → Auction
  | .auc a => a
  | .res _ => ⟨"", "", 0, 0, "", false⟩

def State : Type := String → Option StoredV

def State.put (s : State) (k : String) (v : StoredV) : State :=
  fun k' => if k' = k then some v else s k'

def fetchAuction (s : State) (auctionID : String) : Except Err Auction :=
  match s auctionID with
  | none => .error .notFound
  | some v => .ok (decodeAuc v)

/-- `Bid` (`auction_contract.go:116-165`): checks only `isActive`, the
deadline (a hard `expired` error — no lazy `EndAuction` here) and
`amount ≤ highestBid`.  The resource record and its reserve price are never
consulted. -/
def bid (s : State) (auctionID : String) (amt : ℚ) (caller : String) (now : Int) :
    Except Err State :=
  match fetchAuction s auctionID with
  | .error e => .error e
  | .ok a =>
    if !a.isActive then .error .notActive
    else if a.deadline < now then .error .expired
    else if amt ≤ a.highestBid then .error .belowHighest
    else
      .ok (s.put auctionID (.auc { a with highestBid := amt, highestBidder := caller }))

/-- `EndAuction` (`auction_contract.go:167-212`): requires `isActive` and
`deadline ≤ now`, and *fails with a no-bids error* when `highestBidder` is
empty (lines 197-199); on success only flips `isActive`. -/
def endAuction (s : State) (auctionID : String) (now : Int) : Except Err State :=
  match fetchAuction s auctionID with
  | .error e => .error e
  | .ok a =>
    if !a.isActive then .error .notActive
    else if a.deadline > now then .error .notExpired
    else if a.highestBidder == "" then .error .noBids
    else
      .ok (s.put auctionID (.auc { a with isActive := false }))

end Base

/-! ### Concrete instances used by witnesses and counterexamples -/

/-- Three sealed bids of 10, 25, 15 (reserve 1 ≤ 10), deadline 5. -/
def c1Auction : SP.Auction :=
  ⟨"", "r", 5,
    [⟨"ba", "r", "alice", 10, 1⟩, ⟨"bb", "r", "bob", 25, 2⟩, ⟨"bc", "r", "carol", 15, 3⟩],
    "", 0, true⟩

def c1State : SP.State := fun k =>
  if k = "auction:r" then some (.auc c1Auction)
  else if k = "r" then some (.res ⟨100, 1, "gen", true, true⟩)
  else none

/-- What the second-price `EndAuction` leaves at the auction key: the claim's
settlement post-state. -/
def C1Post (s : SP.State) (rid : String) (now : Int) (a : SP.Auction) : Prop :=
  ∃ s' a',
    SP.endAuction s rid now = .ok s'
    ∧ s' (auctionKey rid) = some (.auc a')
    ∧ a'.bids = SP.sortBidsDesc a.bids
    ∧ List.Sorted (fun x y : SP.Bid => y.bidPrice ≤ x.bidPrice) a'.bids
    ∧ a'.bids.Perm a.bids
    ∧ (∀ q : ℚ, a'.bids.filter (fun b => b.bidPrice = q)
          = a.bids.filter (fun b => b.bidPrice = q))
    ∧ a'.isActive = false
    ∧ (∀ b0 rest, a'.bids = b0 :: rest →
         a'.winnerID = b0.bidder
         ∧ (∀ b ∈ a.bids, b.bidPrice ≤ b0.bidPrice)
         ∧ a'.winnerPrice = (match rest with | [] => b0.bidPrice | b1 :: _ => b1.bidPrice))

/-- Thirteen sealed bids: prices `[9,1,8,5,2,7,5,3,6,5,4,9,0]` with the tie
classes `{9, 9}` (bidders `b0`, `b11`) and `{5, 5, 5}` (bidders `b3`, `b6`,
`b9`).  Thirteen elements push `sort.Slice` past its insertion-sort path, and
pdqsort's partition reorders both tie classes. -/
def c1bigBids : List SP.Bid :=
  [⟨"k0", "r", "b0", 9, 0⟩, ⟨"k1", "r", "b1", 1, 0⟩, ⟨"k2", "r", "b2", 8, 0⟩,
   ⟨"k3", "r", "b3", 5, 0⟩, ⟨"k4", "r", "b4", 2, 0⟩, ⟨"k5", "r", "b5", 7, 0⟩,
   ⟨"k6", "r", "b6", 5, 0⟩, ⟨"k7", "r", "b7", 3, 0⟩, ⟨"k8", "r", "b8", 6, 0⟩,
   ⟨"k9", "r", "b9", 5, 0⟩, ⟨"k10", "r", "b10", 4, 0⟩, ⟨"k11", "r", "b11", 9, 0⟩,
   ⟨"k12", "r", "b12", 0, 0⟩]

/-- Expired (deadline 5) active auction holding the thirteen bids. -/
def c1bigAuction : SP.Auction := ⟨"", "r", 5, c1bigBids, "", 0, true⟩

def c1bigState : SP.State := fun k =>
  if k = "auction:r" then some (.auc c1bigAuction)
  else if k = "r" then some (.res ⟨100, 0, "gen", true, true⟩)
  else none

/-- An auction that is still active (`isActive = true`) but whose deadline (5)
has already passed; it holds one recorded bid. -/
def c2Auction : SP.Auction := ⟨"", "r", 5, [⟨"bx", "r", "alice", 11, 1⟩], "", 0, true⟩

def c2State : SP.State := fun k =>
  if k = "auction:r" then some (.auc c2Auction)
  else if k = "r" then some (.res ⟨100, 1, "gen", true, true⟩)
  else none

/-- What `GetAuction` actually guarantees: redaction is keyed on
`deadline > now`, not on `isActive`. -/
def C2Post (s : SP.State) (rid : String) (now : Int) (a : SP.Auction) : Prop :=
  (a.deadline > now → SP.getAuction s rid now = .ok { a with bids := [] })
  ∧ (a.deadline ≤ now → SP.getAuction s rid now = .ok a)
  ∧ (∀ l₁ l₂ : List SP.Bid, a.deadline > now →
      SP.getAuction (s.put (auctionKey rid) (.auc { a with bids := l₁ })) rid now
        = SP.getAuction (s.put (auctionKey rid) (.auc { a with bids := l₂ })) rid now)

/-- English auction past its deadline (5) but still marked active. -/
def c3AuctionEN : EN.Auction := ⟨"", "r", 5, 0, "", true⟩

def c3StateEN : EN.State := fun k =>
  if k = "auction:r" then some (.auc c3AuctionEN)
  else if k = "r" then some (.res ⟨100, 10, "gen", true, true⟩)
  else none

/-- Second-price auction past its deadline (5), still active, no bids yet;
the resource's reserve price is 10. -/
def c3AuctionSP : SP.Auction := ⟨"", "r", 5, [], "", 0, true⟩

def c3StateSP : SP.State := fun k =>
  if k = "auction:r" then some (.auc c3AuctionSP)
  else if k = "r" then some (.res ⟨100, 10, "gen", true, true⟩)
  else none

/-- The lazy-expiry equation for the English `Bid`. -/
def C3PostEN (s : EN.State) (rid : String) (amt : ℚ) (caller : String) (now : Int) : Prop :=
  EN.bid s rid amt caller now = EN.endAuction s rid now

/-- The lazy-expiry equation for the second-price `Bid`. -/
def C3PostSP (s : SP.State) (rid : String) (amt : ℚ) (caller : String) (now : Int) : Prop :=
  SP.bid s rid amt caller now = SP.endAuction s rid now

/-- Expired (deadline 5) no-bid auction of the base contract. -/
def c4Auction : Base.Auction := ⟨"a1", "r", 5, 0, "", true⟩

def c4StateBase : Base.State := fun k =>
  if k = "a1" then some (.auc c4Auction) else none

/-- English auction used for the C4 witness: expired, no accepted bid. -/
def c4AuctionEN : EN.Auction := ⟨"", "r", 5, 0, "", true⟩

/-- English auction used for the C4 witness: expired, one accepted bid. -/
def c4AuctionEN2 : EN.Auction := ⟨"", "r", 5, 20, "alice", true⟩

def c4StateEN : EN.State := fun k =>
  if k = "auction:r" then some (.auc c4AuctionEN)
  else if k = "r" then some (.res ⟨100, 10, "gen", true, true⟩)
  else none

def c4StateEN2 : EN.State := fun k =>
  if k = "auction:r" then some (.auc c4AuctionEN2)
  else if k = "r" then some (.res ⟨100, 10, "gen", true, true⟩)
  else none

/-- A state whose resource `"r"` is already unavailable. -/
def c4StateEN3 : EN.State := fun k =>
  if k = "r" then some (.res ⟨100, 10, "gen", false, false⟩) else none

/-- Base-contract auction with `highestBid = 0`, open (deadline 100); the
associated resource has reserve price 10, which the base `Bid` never reads. -/
def c5Auction : Base.Auction := ⟨"a1", "r", 100, 0, "", true⟩

def c5StateBase : Base.State := fun k =>
  if k = "a1" then some (.auc c5Auction)
  else if k = "r" then some (.res ⟨100, 10, "gen"⟩)
  else none

/-- English auction with current highest bid 12 over a reserve of 10, open. -/
def c5AuctionEN : EN.Auction := ⟨"", "r", 100, 12, "bob", true⟩

def c5StateEN : EN.State := fun k =>
  if k = "auction:r" then some (.auc c5AuctionEN)
  else if k = "r" then some (.res ⟨100, 10, "gen", true, true⟩)
  else none

/-- Same English auction but already expired (deadline 2). -/
def c5AuctionEN2 : EN.Auction := ⟨"", "r", 2, 12, "bob", true⟩

def c5StateEN2 : EN.State := fun k =>
  if k = "auction:r" then some (.auc c5AuctionEN2)
  else if k = "r" then some (.res ⟨100, 10, "gen", true, true⟩)
  else none

def c6Res5 : EnergyResource := ⟨1, 5, "gen", true, true⟩

/-- An open auction record sharing the key range scanned by the flat
`GetMeritOrder`. -/
def c6Auc : EN.Auction := ⟨"", "r", 9, 0, "", true⟩

def c6r5 : EnergyResource := ⟨1, 5, "a", true, false⟩

def c6r1 : EnergyResource := ⟨2, 1, "b", true, false⟩

def c6r3 : EnergyResource := ⟨3, 3, "c", true, false⟩

/-- Thirteen resources (volume = scan position) with prices
`[0,8,1,4,7,2,4,6,3,4,5,0,9]`: the tie classes `{0, 0}` (volumes 0, 11) and
`{4, 4, 4}` (volumes 3, 6, 9) are reordered by pdqsort's partition once the
scan exceeds 12 entries. -/
def c6bigScan : List EnergyResource :=
  [⟨0, 0, "t", true, false⟩, ⟨1, 8, "t", true, false⟩, ⟨2, 1, "t", true, false⟩,
   ⟨3, 4, "t", true, false⟩, ⟨4, 7, "t", true, false⟩, ⟨5, 2, "t", true, false⟩,
   ⟨6, 4, "t", true, false⟩, ⟨7, 6, "t", true, false⟩, ⟨8, 3, "t", true, false⟩,
   ⟨9, 4, "t", true, false⟩, ⟨10, 5, "t", true, false⟩, ⟨11, 0, "t", true, false⟩,
   ⟨12, 9, "t", true, false⟩]

/-- Open second-price auction, deadline 100. -/
def c7AuctionSP : SP.Auction := ⟨"", "r", 100, [], "", 0, true⟩

def c7StateSP : SP.State := fun k =>
  if k = "auction:r" then some (.auc c7AuctionSP)
  else if k = "r" then some (.res ⟨100, 1, "gen", true, true⟩)
  else none

/-- Already-closed second-price auction. -/
def c7AuctionSP2 : SP.Auction := ⟨"", "r", 100, [], "", 0, false⟩

def c7StateSP2 : SP.State := fun k =>
  if k = "auction:r" then some (.auc c7AuctionSP2)
  else if k = "r" then some (.res ⟨100, 1, "gen", true, true⟩)
  else none

/-- Expired open second-price auction (for the double-close scenario). -/
def c7AuctionSP3 : SP.Auction := ⟨"", "r", 5, [], "", 0, true⟩

def c7StateSP3 : SP.State := fun k =>
  if k = "auction:r" then some (.auc c7AuctionSP3)
  else if k = "r" then some (.res ⟨100, 1, "gen", true, true⟩)
  else none

/-- Open English auction, deadline 100. -/
def c7AuctionEN : EN.Auction := ⟨"", "r", 100, 0, "", true⟩

def c7StateEN : EN.State := fun k =>
  if k = "auction:r" then some (.auc c7AuctionEN)
  else if k = "r" then some (.res ⟨100, 1, "gen", true, true⟩)
  else none

/-- Already-closed English auction. -/
def c7AuctionEN2 : EN.Auction := ⟨"", "r", 100, 0, "", false⟩

def c7StateEN2 : EN.State := fun k =>
  if k = "auction:r" then some (.auc c7AuctionEN2)
  else if k = "r" then some (.res ⟨100, 1, "gen", true, true⟩)
  else none

/-- Expired open English auction (for the double-close scenario). -/
def c7AuctionEN3 : EN.Auction := ⟨"", "r", 5, 0, "", true⟩

def c7StateEN3 : EN.State := fun k =>
  if k = "auction:r" then some (.auc c7AuctionEN3)
  else if k = "r" then some (.res ⟨100, 1, "gen", true, true⟩)
  else none

def c8StateSP : SP.State := fun k =>
  if k = "r" then some (.res ⟨1, 2, "t", true, false⟩) else none

def c8StateEN : EN.State := fun k =>
  if k = "r" then some (.res ⟨1, 2, "t", true, false⟩) else none

/-- Open second-price auction (deadline 100, reserve 1) accepting bids. -/
def c9Auction : SP.Auction := ⟨"", "r", 100, [], "", 0, true⟩

def c9State : SP.State := fun k =>
  if k = "auction:r" then some (.auc c9Auction)
  else if k = "r" then some (.res ⟨100, 1, "gen", true, true⟩)
  else none

/-- Expired second-price auction holding one recorded bid. -/
def c9Auction2 : SP.Auction := ⟨"", "r", 5, [⟨"ba", "r", "alice", 11, 1⟩], "", 0, true⟩

def c9State2 : SP.State := fun k =>
  if k = "auction:r" then some (.auc c9Auction2)
  else if k = "r" then some (.res ⟨100, 1, "gen", true, true⟩)
  else none

def c10StateSP : SP.State := fun k =>
  if k = "r" then some (.res ⟨100, 1, "gen", true, false⟩) else none

def c10StateEN : EN.State := fun k =>
  if k = "r" then some (.res ⟨100, 1, "gen", true, false⟩) else none

/-- The state produced by `StartAuction(duration = -5)` at time 10 in the
second-price contract: the auction's deadline `10 + (-5) = 5` already lies in
the past. -/
def c10StateSP2 : SP.State :=
  (c10StateSP.put "r" (.res { (⟨100, 1, "gen", true, false⟩ : EnergyResource) with auctionStatus := true })).put (auctionKey "r") (.auc ⟨"", "r", 10 + (-5), [], "", 0, true⟩)

/-- Likewise for the English contract. -/
def c10StateEN2 : EN.State :=
  (c10StateEN.put "r" (.res { (⟨100, 1, "gen", true, false⟩ : EnergyResource) with auctionStatus := true })).put (auctionKey "r") (.auc ⟨"", "r", 10 + (-5), 0, "", true⟩)

/-! ### Stability of the insertion sort used by settlement and merit order -/

section SortLemmas

variable {α β : Type} [DecidableEq β] (key : α → β) (r : α → α → Prop) [DecidableRel r]

theorem filter_orderedInsert_of_ne (q : β) (a : α) (h : ¬ key a = q) (l : List α) :
    (List.orderedInsert r a l).filter (fun x => key x = q)
      = l.filter (fun x => key x = q) := by
  induction l with
  | nil => simp [h]
  | cons b l ih =>
      by_cases hr : r a b
      · simp [List.orderedInsert, if_pos hr, List.filter_cons, h]
      · simp only [List.orderedInsert, if_neg hr, List.filter_cons, ih]

theorem filter_orderedInsert_of_eq (hne : ∀ x y, ¬ r x y → key y ≠ key x)
    (q : β) (a : α) (h : key a = q) (l : List α) :
    (List.orderedInsert r a l).filter (fun x => key x = q)
      = a :: l.filter (fun x => key x = q) := by
  induction l with
  | nil => simp [h]
  | cons b l ih =>
      by_cases hr : r a b
      · simp [List.orderedInsert, if_pos hr, List.filter_cons, h]
      · have hb : ¬ key b = q := by rw [← h]; exact hne a b hr
        simp only [List.orderedInsert, if_neg hr, List.filter_cons, ih, hb,
          decide_eq_true_eq, if_neg]
        simp [hb]

/-- `insertionSort` is stable: elements of any given key keep their relative
order. -/
theorem filter_insertionSort (hne : ∀ x y, ¬ r x y → key y ≠ key x)
    (q : β) (l : List α) :
    (List.insertionSort r l).filter (fun x => key x = q)
      = l.filter (fun x => key x = q) := by
  induction l with
  | nil => rfl
  | cons a l ih =>
      by_cases h : key a = q
      · rw [List.insertionSort, filter_orderedInsert_of_eq key r hne q a h, ih]
        simp [List.filter_cons, h]
      · rw [List.insertionSort, filter_orderedInsert_of_ne key r q a h, ih]
        simp [List.filter_cons, h]

end SortLemmas

/-! ### Every step of `sort.Slice` permutes the slice

Each mutation of the pdqsort translation is a `swapIdx`, so every
intermediate list is a permutation of the input — the only fact the
settlement claims need about the beyond-12-elements regime. -/

section GoSortPerm

variable {α : Type}

theorem cons_set_perm : ∀ (t : List α) (m : Nat) (x y : α),
    t.get? m = some y → List.Perm (y :: t.set m x) (x :: t)
  | [], m, _, _, h => by simp at h
  | b :: t, 0, x, y, h => by
      injection h with h
      subst h
      exact List.Perm.swap x b t
  | b :: t, m+1, x, y, h => by
      have h' : t.get? m = some y := h
      have ih := cons_set_perm t m x y h'
      show List.Perm (y :: b :: t.set m x) (x :: b :: t)
      exact ((List.Perm.swap b y _).trans (ih.cons b)).trans (List.Perm.swap x b t)

theorem set_set_perm : ∀ (l : List α) (i j : Nat) (x y : α),
    l.get? i = some x → l.get? j = some y → List.Perm ((l.set i y).set j x) l
  | [], _, _, _, _, hi, _ => by simp at hi
  | a :: t, 0, 0, x, y, hi, hj => by
      injection hi with hi
      injection hj with hj
      subst hi; subst hj
      exact List.Perm.refl _
  | a :: t, 0, j+1, x, y, hi, hj => by
      injection hi with hi
      subst hi
      exact cons_set_perm t j a y hj
  | a :: t, i+1, 0, x, y, hi, hj => by
      injection hj with hj
      subst hj
      exact cons_set_perm t i a x hi
  | a :: t, i+1, j+1, x, y, hi, hj =>
      (set_set_perm t i j x y hi hj).cons a

theorem swapIdx_perm (l : List α) (i j : Nat) : (swapIdx l i j).Perm l := by
  unfold swapIdx
  cases hx : l.get? i with
  | none => simp
  | some x =>
      cases hy : l.get? j with
      | none => simp
      | some y => exact set_set_perm l i j x y hx hy

theorem insertionSortRange_perm (less : α → α → Bool) (l : List α) (a b : Nat) :
    (insertionSortRange less l a b).Perm l := by
  unfold insertionSortRange
  have hdd : (l.drop a).drop (b - a) = l.drop (a + (b - a)) := by
    rw [List.drop_drop]
  conv_rhs =>
    rw [← List.take_append_drop a l, ← List.take_append_drop (b - a) (l.drop a), hdd]
  rw [List.append_assoc]
  exact List.Perm.append_left _
    ((List.perm_insertionSort _ _).append_right _)

theorem siftDownGo_perm (less : α → α → Bool) :
    ∀ (fuel : Nat) (l : List α) (root hi first : Nat),
      (siftDownGo less fuel l root hi first).Perm l
  | 0, l, _, _, _ => List.Perm.refl l
  | fuel+1, l, root, hi, first => by
      show (siftDownGo less (fuel+1) l root hi first).Perm l
      simp only [siftDownGo]
      repeat' split
      all_goals first
        | exact List.Perm.refl l
        | exact (siftDownGo_perm less fuel _ _ _ _).trans (swapIdx_perm l _ _)

theorem heapBuild_perm (less : α → α → Bool) :
    ∀ (k : Nat) (l : List α) (hi first : Nat), (heapBuild less k l hi first).Perm l
  | 0, l, _, _ => List.Perm.refl l
  | k+1, l, hi, first =>
      (heapBuild_perm less k _ hi first).trans (siftDownGo_perm less hi l k hi first)

theorem heapPop_perm (less : α → α → Bool) :
    ∀ (k : Nat) (l : List α) (first : Nat), (heapPop less k l first).Perm l
  | 0, l, _ => List.Perm.refl l
  | k+1, l, first =>
      (heapPop_perm less k _ first).trans
        ((siftDownGo_perm less k _ 0 k first).trans (swapIdx_perm l first (first+k)))

theorem heapSortRange_perm (less : α → α → Bool) (l : List α) (a b : Nat) :
    (heapSortRange less l a b).Perm l :=
  (heapPop_perm less (b - a) _ a).trans (heapBuild_perm less ((b - a - 1)/2 + 1) l (b - a) a)

theorem reverseRangeGo_perm :
    ∀ (fuel : Nat) (l : List α) (i j : Nat), (reverseRangeGo fuel l i j).Perm l
  | 0, l, _, _ => List.Perm.refl l
  | fuel+1, l, i, j => by
      show (reverseRangeGo (fuel+1) l i j).Perm l
      simp only [reverseRangeGo]
      split
      · exact (reverseRangeGo_perm fuel _ (i+1) (j-1)).trans (swapIdx_perm l i j)
      · exact List.Perm.refl l

theorem breakPatternsGo_perm (l : List α) (a b : Nat) : (breakPatternsGo l a b).Perm l := by
  simp only [breakPatternsGo]
  split
  · exact (swapIdx_perm _ _ _).trans ((swapIdx_perm _ _ _).trans (swapIdx_perm _ _ _))
  · exact List.Perm.refl l

theorem painShiftLeft_perm (less : α → α → Bool) :
    ∀ (l : List α) (j : Nat), (painShiftLeft less l j).Perm l
  | l, 0 => List.Perm.refl l
  | l, j+1 => by
      show (painShiftLeft less l (j+1)).Perm l
      simp only [painShiftLeft]
      split
      · exact (painShiftLeft_perm less _ j).trans (swapIdx_perm l (j+1) j)
      · exact List.Perm.refl l

theorem painShiftRight_perm (less : α → α → Bool) (b : Nat) :
    ∀ (fuel : Nat) (l : List α) (j : Nat), (painShiftRight less b fuel l j).Perm l
  | 0, l, _ => List.Perm.refl l
  | fuel+1, l, j => by
      show (painShiftRight less b (fuel+1) l j).Perm l
      simp only [painShiftRight]
      split
      · exact (painShiftRight_perm less b fuel _ (j+1)).trans (swapIdx_perm l j (j-1))
      · exact List.Perm.refl l

theorem painSteps_perm (less : α → α → Bool) (a b : Nat) :
    ∀ (steps : Nat) (l : List α) (i : Nat), (painSteps less a b steps l i).1.Perm l
  | 0, l, _ => List.Perm.refl l
  | steps+1, l, i => by
      show (painSteps less a b (steps+1) l i).1.Perm l
      simp only [painSteps]
      split
      · exact List.Perm.refl l
      · split
        · exact List.Perm.refl l
        · refine (painSteps_perm less a b steps _ _).trans ?_
          have hswap := swapIdx_perm l (painAdvance less l b b i) (painAdvance less l b b i - 1)
          split
          · refine (painShiftRight_perm less b b _ _).trans ?_
            split
            · exact (painShiftLeft_perm less _ _).trans hswap
            · exact hswap
          · split
            · exact (painShiftLeft_perm less _ _).trans hswap
            · exact hswap

theorem partialInsertionSortGo_perm (less : α → α → Bool) (l : List α) (a b : Nat) :
    (partialInsertionSortGo less l a b).1.Perm l :=
  painSteps_perm less a b 5 l (a+1)

theorem partitionLoop_perm (less : α → α → Bool) (a : Nat) :
    ∀ (fuel : Nat) (l : List α) (i j : Nat), (partitionLoop less a fuel l i j).1.Perm l
  | 0, l, _, _ => List.Perm.refl l
  | fuel+1, l, i, j => by
      show (partitionLoop less a (fuel+1) l i j).1.Perm l
      simp only [partitionLoop]
      split
      · exact List.Perm.refl l
      · exact (partitionLoop_perm less a fuel _ _ _).trans (swapIdx_perm l _ _)

theorem partitionGo_perm (less : α → α → Bool) (l : List α) (a b pivot : Nat) :
    (partitionGo less l a b pivot).2.1.Perm l := by
  simp only [partitionGo]
  split
  · exact (swapIdx_perm _ _ _).trans (swapIdx_perm l a pivot)
  · exact (swapIdx_perm _ _ _).trans
      ((partitionLoop_perm less a b _ _ _).trans
        ((swapIdx_perm _ _ _).trans (swapIdx_perm l a pivot)))

theorem peqLoop_perm (less : α → α → Bool) (a : Nat) :
    ∀ (fuel : Nat) (l : List α) (i j : Nat), (peqLoop less a fuel l i j).1.Perm l
  | 0, l, _, _ => List.Perm.refl l
  | fuel+1, l, i, j => by
      show (peqLoop less a (fuel+1) l i j).1.Perm l
      simp only [peqLoop]
      split
      · exact List.Perm.refl l
      · exact (peqLoop_perm less a fuel _ _ _).trans (swapIdx_perm l _ _)

theorem partitionEqualGo_perm (less : α → α → Bool) (l : List α) (a b pivot : Nat) :
    (partitionEqualGo less l a b pivot).2.Perm l :=
  (peqLoop_perm less a b _ _ _).trans (swapIdx_perm l a pivot)

theorem pdqsortLoop_perm (less : α → α → Bool) :
    ∀ (fuel : Nat) (l : List α) (a b limit : Nat) (wb wp : Bool),
      (pdqsortLoop less fuel l a b limit wb wp).Perm l := by
  intro fuel
  induction fuel with
  | zero => intro l a b limit wb wp; exact List.Perm.refl l
  | succ fuel ih =>
      intro l a b limit wb wp
      simp only [pdqsortLoop]
      by_cases h1 : b - a ≤ 12
      · rw [if_pos h1]; exact insertionSortRange_perm less l a b
      rw [if_neg h1]
      by_cases h2 : limit = 0
      · rw [if_pos h2]; exact heapSortRange_perm less l a b
      rw [if_neg h2]
      set l1 := if !wb then breakPatternsGo l a b else l with hl1
      have hp1 : l1.Perm l := by
        rw [hl1]; split
        · exact breakPatternsGo_perm l a b
        · exact List.Perm.refl l
      set ph := choosePivotGo less l1 a b with hph
      set l2 := if ph.2 = SortedHint.decreasing then reverseRangeGo b l1 a (b - 1) else l1
        with hl2
      have hp2 : l2.Perm l1 := by
        rw [hl2]; split
        · exact reverseRangeGo_perm b l1 a (b - 1)
        · exact List.Perm.refl l1
      set limit1 := if !wb then limit - 1 else limit
      set pivot1 := if ph.2 = SortedHint.decreasing then (b - 1) - (ph.1 - a) else ph.1
      set hint1 := if ph.2 = SortedHint.decreasing then SortedHint.increasing else ph.2
      set pis := if wb ∧ wp ∧ hint1 = SortedHint.increasing
        then partialInsertionSortGo less l2 a b else (l2, false) with hpis
      have hp3 : pis.1.Perm l2 := by
        rw [hpis]; split
        · exact partialInsertionSortGo_perm less l2 a b
        · exact List.Perm.refl l2
      have hp123 : pis.1.Perm l := hp3.trans (hp2.trans hp1)
      split
      · exact hp123
      · split
        · exact (ih _ _ _ _ _ _).trans
            ((partitionEqualGo_perm less pis.1 a b pivot1).trans hp123)
        · split
          · exact (ih _ _ _ _ _ _).trans
              ((ih _ _ _ _ _ _).trans
                ((partitionGo_perm less pis.1 a b pivot1).trans hp123))
          · exact (ih _ _ _ _ _ _).trans
              ((ih _ _ _ _ _ _).trans
                ((partitionGo_perm less pis.1 a b pivot1).trans hp123))

theorem goSortSlice_perm (less : α → α → Bool) (l : List α) :
    (goSortSlice less l).Perm l := by
  unfold goSortSlice
  split
  · exact List.perm_insertionSort _ l
  · exact pdqsortLoop_perm less _ l 0 l.length _ true true

theorem goSortSlice_of_short (less : α → α → Bool) (l : List α) (h : l.length ≤ 12) :
    goSortSlice less l = List.insertionSort (goStableOf less) l := by
  unfold goSortSlice
  rw [if_pos h]

end GoSortPerm

/-! ### The at-most-12-bids regime of the settlement sort -/

theorem sortBidsDesc_short_eq (l : List SP.Bid) (h : l.length ≤ 12) :
    SP.sortBidsDesc l
      = List.insertionSort
          (goStableOf (fun x y : SP.Bid => decide (y.bidPrice < x.bidPrice))) l :=
  goSortSlice_of_short _ l h

theorem sortBidsDesc_sorted (l : List SP.Bid) (h : l.length ≤ 12) :
    List.Sorted (fun x y : SP.Bid => y.bidPrice ≤ x.bidPrice) (SP.sortBidsDesc l) := by
  rw [sortBidsDesc_short_eq l h]
  haveI : IsTotal SP.Bid (goStableOf (fun x y : SP.Bid => decide (y.bidPrice < x.bidPrice))) :=
    ⟨fun a b => by
      rcases le_total b.bidPrice a.bidPrice with hle | hle
      · exact Or.inl (decide_eq_false (not_lt.mpr hle))
      · exact Or.inr (decide_eq_false (not_lt.mpr hle))⟩
  haveI : IsTrans SP.Bid (goStableOf (fun x y : SP.Bid => decide (y.bidPrice < x.bidPrice))) :=
    ⟨fun a b c hab hbc => decide_eq_false (not_lt.mpr (le_trans
        (not_lt.mp (of_decide_eq_false hbc)) (not_lt.mp (of_decide_eq_false hab))))⟩
  exact List.Pairwise.imp (fun h => not_lt.mp (of_decide_eq_false h))
    (List.sorted_insertionSort
      (goStableOf (fun x y : SP.Bid => decide (y.bidPrice < x.bidPrice))) l)

theorem sortBidsDesc_perm (l : List SP.Bid) : (SP.sortBidsDesc l).Perm l :=
  goSortSlice_perm _ l

theorem sortBidsDesc_stable (q : ℚ) (l : List SP.Bid) (h : l.length ≤ 12) :
    (SP.sortBidsDesc l).filter (fun b => b.bidPrice = q)
      = l.filter (fun b => b.bidPrice = q) := by
  rw [sortBidsDesc_short_eq l h]
  exact filter_insertionSort (fun b => b.bidPrice)
    (goStableOf (fun x y : SP.Bid => decide (y.bidPrice < x.bidPrice)))
    (fun x y hxy => ne_of_gt (by simpa [goStableOf] using hxy)) q l

/-- C1 counterexample: settling the 13-bid auction runs pdqsort, which
reorders the tied top price 9 — the stored sequence starts with `b11`'s bid
before `b0`'s, the filter at price 9 flips the insertion order, and the
winner is `b11`, not the earliest highest bidder `b0` — so neither the
stability clause nor the tied-winner reading of the claim survives past 12
bids. -/
theorem C1_second_price_settlement_counterexample :
    (SP.endAuction c1bigState "r" 10).map (fun s' => s' (auctionKey "r"))
      = .ok (some (.auc ⟨"", "r", 5,
          [⟨"k11", "r", "b11", 9, 0⟩, ⟨"k0", "r", "b0", 9, 0⟩, ⟨"k2", "r", "b2", 8, 0⟩,
           ⟨"k5", "r", "b5", 7, 0⟩, ⟨"k8", "r", "b8", 6, 0⟩, ⟨"k6", "r", "b6", 5, 0⟩,
           ⟨"k3", "r", "b3", 5, 0⟩, ⟨"k9", "r", "b9", 5, 0⟩, ⟨"k10", "r", "b10", 4, 0⟩,
           ⟨"k7", "r", "b7", 3, 0⟩, ⟨"k4", "r", "b4", 2, 0⟩, ⟨"k1", "r", "b1", 1, 0⟩,
           ⟨"k12", "r", "b12", 0, 0⟩], "b11", 9, false⟩))
    ∧ c1bigBids.filter (fun b => b.bidPrice = 9)
        = [⟨"k0", "r", "b0", 9, 0⟩, ⟨"k11", "r", "b11", 9, 0⟩]
    ∧ (SP.sortBidsDesc c1bigBids).filter (fun b => b.bidPrice = 9)
        ≠ c1bigBids.filter (fun b => b.bidPrice = 9)
    ∧ (∀ b ∈ c1bigBids, b.bidPrice ≤ 9)
    ∧ ("b11" : String) ≠ "b0" :=
  ⟨by decide, by decide, by decide, by decide, by decide⟩

/-- C1 (corrected): a second-price auction holding at most 12 bids, closed by
`EndAuction` at or after its deadline, has its recorded bids sorted descending
by `bidPrice`, stably (ties keep insertion order), its `winnerID` set to the
bidder of the highest bid and its `winnerPrice` to the second-highest price
when at least two bids exist, or to the single bid's own price otherwise.
Beyond 12 bids `sort.Slice` leaves pdqsort's reordering of equal prices, and
only a permutation sorted descending is guaranteed (the tie clauses fail at
13 bids: see the counterexample). -/
theorem C1_second_price_settlement
    (s : SP.State) (rid : String) (now : Int) (a : SP.Auction)
    (ha : s (auctionKey rid) = some (.auc a))
    (hact : a.isActive = true)
    (hdl : a.deadline ≤ now)
    (hres : (s a.resourceID).isSome)
    (hlen : a.bids.length ≤ 12) :
    C1Post s rid now a := by
  obtain ⟨v, hv⟩ := Option.isSome_iff_exists.mp hres
  have hnd : ¬ a.deadline > now := not_lt.mpr hdl
  have hfa : SP.fetchAuction s rid = .ok a := by
    simp [SP.fetchAuction, ha, SP.decodeAuc]
  have hfr : SP.fetchResource s a.resourceID = .ok (SP.decodeRes v) := by
    simp [SP.fetchResource, hv]
  cases hsort : SP.sortBidsDesc a.bids with
  | nil =>
      refine ⟨(s.put a.resourceID (.res { SP.decodeRes v with auctionStatus := false })).put
          (auctionKey rid) (.auc { a with bids := ([] : List SP.Bid), isActive := false }),
        { a with bids := ([] : List SP.Bid), isActive := false },
        ?_, ?_, ?_, ?_, ?_, ?_, rfl, ?_⟩
      · simp [SP.endAuction, hfa, hfr, hact, if_neg hnd, hsort]
      · simp [SP.State.put]
      · exact hsort.symm
      · exact List.sorted_nil
      · have := sortBidsDesc_perm a.bids
        rw [hsort] at this
        exact this
      · intro q
        have := sortBidsDesc_stable q a.bids hlen
        rw [hsort] at this
        exact this
      · intro b0 rest hcon
        simp at hcon
  | cons b0 rest =>
      refine ⟨(s.put a.resourceID (.res { SP.decodeRes v with auctionStatus := false, isAvailable := false })).put (auctionKey rid) (.auc { a with bids := b0 :: rest, isActive := false, winnerID := b0.bidder, winnerPrice := (match rest with | [] => b0.bidPrice | b1 :: _ => b1.bidPrice) }),
        { a with bids := b0 :: rest, isActive := false, winnerID := b0.bidder, winnerPrice := (match rest with | [] => b0.bidPrice | b1 :: _ => b1.bidPrice) },
        ?_, ?_, ?_, ?_, ?_, ?_, rfl, ?_⟩
      · cases rest <;> simp [SP.endAuction, hfa, hfr, hact, if_neg hnd, hsort]
      · simp [SP.State.put]
      · exact hsort.symm
      · show List.Sorted _ (b0 :: rest)
        rw [← hsort]; exact sortBidsDesc_sorted a.bids hlen
      · show List.Perm (b0 :: rest) a.bids
        rw [← hsort]; exact sortBidsDesc_perm a.bids
      · intro q
        show (b0 :: rest).filter _ = _
        rw [← hsort]; exact sortBidsDesc_stable q a.bids hlen
      · intro c0 crest hcon
        have hcon' : b0 :: rest = c0 :: crest := hcon
        injection hcon' with h1 h2
        subst h1; subst h2
        refine ⟨rfl, ?_, by cases rest <;> rfl⟩
        intro b hb
        have hmem : b ∈ b0 :: rest := by
          rw [← hsort]
          exact ((sortBidsDesc_perm a.bids).mem_iff).mpr hb
        have hsorted : List.Sorted (fun x y : SP.Bid => y.bidPrice ≤ x.bidPrice)
            (b0 :: rest) := by rw [← hsort]; exact sortBidsDesc_sorted a.bids hlen
        rcases List.mem_cons.mp hmem with h | h
        · rw [h]
        · exact (List.sorted_cons.mp hsorted).1 b h

/-- Witness for C1: bids `[10, 25, 15]`, reserve 1, deadline 5, closed at
time 10 — winner is the bidder of 25 (`"bob"`), price 15, bids stored as
`[25, 15, 10]`. -/
theorem C1_second_price_settlement_witness :
    c1State (auctionKey "r") = some (.auc c1Auction)
    ∧ c1Auction.isActive = true
    ∧ c1Auction.deadline ≤ 10
    ∧ (c1State c1Auction.resourceID).isSome
    ∧ c1Auction.bids.length ≤ 12
    ∧ C1Post c1State "r" 10 c1Auction
    ∧ (SP.endAuction c1State "r" 10).map (fun s' => s' (auctionKey "r"))
        = .ok (some (.auc ⟨"", "r", 5,
            [⟨"bb", "r", "bob", 25, 2⟩, ⟨"bc", "r", "carol", 15, 3⟩,
             ⟨"ba", "r", "alice", 10, 1⟩], "bob", 15, false⟩)) :=
  ⟨by decide, rfl, by decide, by decide, by decide,
    C1_second_price_settlement c1State "r" 10 c1Auction (by decide) rfl (by decide) (by decide)
      (by decide),
    by decide⟩

/-- C2 counterexample: `GetAuction` on an auction with `isActive = true` whose
deadline (5) lies before the transaction time (10) returns the *full* bid
list, not an empty one — redaction is keyed on the deadline, not on
`isActive`. -/
theorem C2_redaction_counterexample :
    c2Auction.isActive = true
    ∧ SP.getAuction c2State "r" 10 = .ok c2Auction
    ∧ c2Auction.bids ≠ [] :=
  ⟨rfl, by decide, by decide⟩

/-- C2 (corrected): `GetAuction` blanks the `bids` sequence exactly when the
transaction time is strictly before the deadline — in that regime the result
is independent of the stored bids — and returns the record unchanged (bids
and settlement fields visible) as soon as `now ≥ deadline`, even while
`isActive` is still true. -/
theorem C2_redaction_by_deadline
    (s : SP.State) (rid : String) (now : Int) (a : SP.Auction)
    (ha : s (auctionKey rid) = some (.auc a)) :
    C2Post s rid now a := by
  have hfa : SP.fetchAuction s rid = .ok a := by
    simp [SP.fetchAuction, ha, SP.decodeAuc]
  refine ⟨?_, ?_, ?_⟩
  · intro h
    simp [SP.getAuction, hfa, h]
  · intro h
    simp [SP.getAuction, hfa, not_lt.mpr h]
  · intro l₁ l₂ h
    have h1 : SP.fetchAuction (s.put (auctionKey rid) (.auc { a with bids := l₁ })) rid
        = .ok { a with bids := l₁ } := by
      simp [SP.fetchAuction, SP.State.put, SP.decodeAuc]
    have h2 : SP.fetchAuction (s.put (auctionKey rid) (.auc { a with bids := l₂ })) rid
        = .ok { a with bids := l₂ } := by
      simp [SP.fetchAuction, SP.State.put, SP.decodeAuc]
    simp [SP.getAuction, h1, h2, h]

/-- Witness for C2: with deadline 5 and transaction time 3, the stored bid is
redacted and the result does not depend on the stored bid list. -/
theorem C2_redaction_by_deadline_witness :
    c2State (auctionKey "r") = some (.auc c2Auction) ∧ C2Post c2State "r" 3 c2Auction :=
  ⟨by decide, C2_redaction_by_deadline c2State "r" 3 c2Auction (by decide)⟩

/-- C3 counterexample: in the second-price contract a `Bid` of 3 (below the
reserve 10) at time 10, on an active auction whose deadline 5 has passed,
fails with the reserve-price error and does *not* perform the `EndAuction`
transition, while an explicit `EndAuction` at the same time succeeds. -/
theorem C3_bid_after_deadline_counterexample :
    c3AuctionSP.isActive = true
    ∧ c3AuctionSP.deadline < 10
    ∧ SP.bid c3StateSP "r" 3 "alice" 10 = .error .belowReserve
    ∧ (∃ s', SP.endAuction c3StateSP "r" 10 = .ok s')
    ∧ SP.bid c3StateSP "r" 3 "alice" 10 ≠ SP.endAuction c3StateSP "r" 10 := by
  refine ⟨rfl, by decide, rfl, ⟨_, rfl⟩, ?_⟩
  intro h
  obtain ⟨s', hs'⟩ : ∃ s', SP.endAuction c3StateSP "r" 10 = .ok s' := ⟨_, rfl⟩
  have hb : SP.bid c3StateSP "r" 3 "alice" 10 = .error .belowReserve := rfl
  rw [hb, hs'] at h
  exact Except.noConfusion h

/-- C3 (corrected): `Bid` strictly after the deadline performs exactly the
`EndAuction` transition in the English contract regardless of the amount, and
in the second-price contract only when the amount exceeds the reserve price;
a below-reserve amount is rejected first, with no state change and no
lazy expiry. -/
theorem C3_bid_after_deadline :
    (∀ (s : EN.State) (rid : String) (amt : ℚ) (caller : String) (now : Int) (a : EN.Auction),
        s (auctionKey rid) = some (.auc a) → a.isActive = true → a.resourceID = rid →
        a.deadline < now → C3PostEN s rid amt caller now)
    ∧ (∀ (s : SP.State) (rid : String) (amt : ℚ) (caller : String) (now : Int)
        (a : SP.Auction) (r : EnergyResource),
        s (auctionKey rid) = some (.auc a) → s rid = some (.res r) → a.isActive = true →
        a.deadline < now → r.price < amt → C3PostSP s rid amt caller now)
    ∧ (∀ (s : SP.State) (rid : String) (amt : ℚ) (caller : String) (now : Int)
        (a : SP.Auction) (r : EnergyResource),
        s (auctionKey rid) = some (.auc a) → s rid = some (.res r) → amt ≤ r.price →
        SP.bid s rid amt caller now = .error .belowReserve) := by
  refine ⟨?_, ?_, ?_⟩
  · intro s rid amt caller now a ha hact hrid hdl
    subst hrid
    have hfa : EN.fetchAuction s a.resourceID = .ok a := by
      simp [EN.fetchAuction, ha, EN.decodeAuc]
    unfold C3PostEN
    cases hr : s a.resourceID with
    | none =>
        have hfr : EN.fetchResource s a.resourceID = .error Err.notFound := by
          simp [EN.fetchResource, hr]
        simp [EN.bid, EN.endAuction, hfa, hfr, hact, if_neg (lt_asymm hdl)]
    | some v =>
        have hfr : EN.fetchResource s a.resourceID = .ok (EN.decodeRes v) := by
          simp [EN.fetchResource, hr]
        simp [EN.bid, hfa, hfr, hact, hdl]
  · intro s rid amt caller now a r ha hrs hact hdl hamt
    have hfa : SP.fetchAuction s rid = .ok a := by
      simp [SP.fetchAuction, ha, SP.decodeAuc]
    have hfr : SP.fetchResource s rid = .ok r := by
      simp [SP.fetchResource, hrs, SP.decodeRes]
    unfold C3PostSP
    simp [SP.bid, hfa, hfr, hact, hdl, not_le.mpr hamt]
  · intro s rid amt caller now a r ha hrs hle
    have hfa : SP.fetchAuction s rid = .ok a := by
      simp [SP.fetchAuction, ha, SP.decodeAuc]
    have hfr : SP.fetchResource s rid = .ok r := by
      simp [SP.fetchResource, hrs, SP.decodeRes]
    simp [SP.bid, hfa, hfr, hle]

/-- Witness for C3: the English lazy-expiry equation at a concrete expired
auction, the second-price equation for an above-reserve amount (20 > 10), and
the below-reserve rejection for amount 3. -/
theorem C3_bid_after_deadline_witness :
    (c3StateEN (auctionKey "r") = some (.auc c3AuctionEN) ∧ c3AuctionEN.isActive = true
      ∧ c3AuctionEN.resourceID = "r" ∧ c3AuctionEN.deadline < 10
      ∧ C3PostEN c3StateEN "r" 20 "alice" 10)
    ∧ (c3StateSP (auctionKey "r") = some (.auc c3AuctionSP)
      ∧ c3StateSP "r" = some (.res ⟨100, 10, "gen", true, true⟩)
      ∧ c3AuctionSP.isActive = true ∧ c3AuctionSP.deadline < 10
      ∧ (⟨100, 10, "gen", true, true⟩ : EnergyResource).price < 20
      ∧ C3PostSP c3StateSP "r" 20 "alice" 10)
    ∧ ((3 : ℚ) ≤ (⟨100, 10, "gen", true, true⟩ : EnergyResource).price
      ∧ SP.bid c3StateSP "r" 3 "alice" 10 = .error .belowReserve) :=
  ⟨⟨by decide, rfl, rfl, by decide,
      C3_bid_after_deadline.1 c3StateEN "r" 20 "alice" 10 c3AuctionEN
        (by decide) rfl rfl (by decide)⟩,
    ⟨by decide, by decide, rfl, by decide, by decide,
      C3_bid_after_deadline.2.1 c3StateSP "r" 20 "alice" 10 c3AuctionSP
        ⟨100, 10, "gen", true, true⟩ (by decide) (by decide) rfl (by decide) (by decide)⟩,
    ⟨by decide,
      C3_bid_after_deadline.2.2 c3StateSP "r" 3 "alice" 10 c3AuctionSP
        ⟨100, 10, "gen", true, true⟩ (by decide) (by decide) (by decide)⟩⟩

theorem SP.fetchAuction_put_last_sp (s : SP.State) (rid : String) (a : SP.Auction) :
    SP.fetchAuction (SP.State.put s (auctionKey rid) (.auc a)) rid = .ok a := by
  simp [SP.fetchAuction, SP.State.put, SP.decodeAuc]

theorem EN.fetchAuction_put_last_en (s : EN.State) (rid : String) (a : EN.Auction) :
    EN.fetchAuction (EN.State.put s (auctionKey rid) (.auc a)) rid = .ok a := by
  simp [EN.fetchAuction, EN.State.put, EN.decodeAuc]

theorem auctionKey_ne (rid : String) : auctionKey rid ≠ rid := by
  intro h
  have h2 := congrArg String.length h
  rw [auctionKey, String.length_append] at h2
  have h8 : ("auction:" : String).length = 8 := rfl
  omega

theorem EN.availAt_put_res (s : EN.State) (k rid : String) (r : EnergyResource) :
    EN.availAt (s.put k (.res r)) rid
      = if rid = k then some r.isAvailable else EN.availAt s rid := by
  unfold EN.availAt EN.State.put
  by_cases hk : rid = k <;> simp [hk, EN.decodeRes]

theorem EN.availAt_put_auc (s : EN.State) (k rid : String) (a : EN.Auction) :
    EN.availAt (s.put k (.auc a)) rid
      = if rid = k then some false else EN.availAt s rid := by
  unfold EN.availAt EN.State.put
  by_cases hk : rid = k <;> simp [hk, EN.decodeRes]

/-- A successful English `EndAuction` never raises any stored `isAvailable`
flag from `false`. -/
theorem EN.endAuction_preserves_unavail
    (s : EN.State) (rid' : String) (now : Int) (rid : String)
    (h : EN.availAt s rid = some false) :
    ∀ s', EN.endAuction s rid' now = .ok s' → EN.availAt s' rid = some false := by
  intro s' heq
  unfold EN.endAuction at heq
  cases hfa : EN.fetchAuction s rid' with
  | error e => rw [hfa] at heq; exact Except.noConfusion heq
  | ok a =>
      rw [hfa] at heq
      by_cases hact : a.isActive
      · by_cases hdl : a.deadline > now
        · simp [hact, hdl] at heq
        · cases hv : s a.resourceID with
          | none => simp [hact, hdl, EN.fetchResource, hv] at heq
          | some v =>
              simp only [hact, hdl, EN.fetchResource, hv, Bool.not_true,
                Bool.false_eq_true, if_false, ite_false, ite_true, if_neg, if_pos] at heq
              injection heq with hF
              subst hF
              rw [EN.availAt_put_auc]
              by_cases h1 : rid = auctionKey rid'
              · simp [h1]
              · rw [if_neg h1, EN.availAt_put_res]
                by_cases h2 : rid = a.resourceID
                · rw [if_pos h2]
                  have hfalse : (EN.decodeRes v).isAvailable = false := by
                    rw [h2] at h
                    unfold EN.availAt at h
                    rw [hv] at h
                    simpa using h
                  by_cases h3 : a.highestBidder = "" <;> simp [h3, hfalse]
                · rw [if_neg h2, EN.availAt_put_auc, if_neg h1]
                  exact h
      · simp [hact] at heq

/-- No single invocation of the English contract raises a stored
`isAvailable` flag from `false`. -/
theorem EN.step_preserves_unavail (s : EN.State) (rid : String) (op : EN.Op) (now : Int)
    (h : EN.availAt s rid = some false) :
    EN.availAt (EN.step s op now) rid = some false := by
  cases op with
  | submit rid' vol price ty =>
      unfold EN.step EN.apply EN.submitEnergyResource
      cases hr : s rid' with
      | some v => simp only [hr]; exact h
      | none =>
          simp only [hr]
          rw [EN.availAt_put_res]
          by_cases h1 : rid = rid'
          · exfalso
            rw [h1] at h
            unfold EN.availAt at h
            rw [hr] at h
            simp at h
          · rw [if_neg h1]; exact h
  | start rid' dur =>
      unfold EN.step EN.apply EN.startAuction EN.fetchResource
      cases hr : s rid' with
      | none => simp only [hr]; exact h
      | some v =>
          by_cases hstat : (EN.decodeRes v).auctionStatus
          · simp only [hr, hstat, if_true, ite_true]; exact h
          · by_cases hav : (EN.decodeRes v).isAvailable
            · have hne : ¬ rid = rid' := by
                intro he
                rw [he] at h
                unfold EN.availAt at h
                rw [hr] at h
                simp [hav] at h
              simp only [hr, hstat, hav, Bool.not_true, Bool.not_false, if_false, if_true,
                ite_true, ite_false, Bool.false_eq_true, Bool.true_eq_false]
              rw [EN.availAt_put_auc]
              by_cases h1 : rid = auctionKey rid'
              · simp [h1]
              · rw [if_neg h1, EN.availAt_put_res, if_neg hne]
                exact h
            · simp only [hr]
              rw [if_neg hstat]
              simp only [Bool.not_eq_true] at hav
              simp only [hav, Bool.not_false, ite_true]
              exact h
  | bidOp rid' amt caller =>
      cases hfa : EN.fetchAuction s rid' with
      | error e =>
          unfold EN.step EN.apply EN.bid
          simp only [hfa]; exact h
      | ok a =>
          cases hv : s rid' with
          | none =>
              unfold EN.step EN.apply EN.bid EN.fetchResource
              simp only [hfa, hv]; exact h
          | some v =>
              unfold EN.step EN.apply EN.bid EN.fetchResource
              simp only [hfa, hv]
              by_cases hact : a.isActive
              · by_cases hdl : a.deadline < now
                · simp only [hact, Bool.not_true, Bool.false_eq_true, if_false, ite_false,
                    if_pos hdl]
                  cases he : EN.endAuction s rid' now with
                  | error e => simp only [he]; exact h
                  | ok s' =>
                      simp only [he]
                      exact EN.endAuction_preserves_unavail s rid' now rid h s' he
                · by_cases hres : amt ≤ (EN.decodeRes v).price
                  · simp only [hact, Bool.not_true, Bool.false_eq_true, if_false, ite_false,
                      if_neg hdl, if_pos hres]
                    exact h
                  · by_cases hhb : amt ≤ a.highestBid
                    · simp only [hact, Bool.not_true, Bool.false_eq_true, if_false, ite_false,
                        if_neg hdl, if_neg hres, if_pos hhb]
                      exact h
                    · simp only [hact, Bool.not_true, Bool.false_eq_true, if_false, ite_false,
                        if_neg hdl, if_neg hres, if_neg hhb]
                      rw [EN.availAt_put_auc]
                      by_cases h1 : rid = auctionKey rid' <;> simp [h1, h]
              · simp only [Bool.not_eq_true] at hact
                simp only [hact, Bool.not_false, ite_true]
                exact h
  | endA rid' =>
      unfold EN.step EN.apply
      cases he : EN.endAuction s rid' now with
      | error e => simp only [he]; exact h
      | ok s' =>
          simp only [he]
          exact EN.endAuction_preserves_unavail s rid' now rid h s' he

/-- Once `false`, `isAvailable` stays `false` along any sequence of
invocations. -/
theorem EN.run_preserves_unavail (rid : String) :
    ∀ (ops : List (EN.Op × Int)) (s : EN.State),
      EN.availAt s rid = some false → EN.availAt (EN.run s ops) rid = some false
  | [], _, h => h
  | p :: ps, s, h =>
      EN.run_preserves_unavail rid ps (EN.step s p.1 p.2)
        (EN.step_preserves_unavail s rid p.1 p.2 h)

/-- C4 counterexample: in the base contract (`auction_contract.go:197-199`),
`EndAuction` on an expired auction that received no bids does not succeed
with no winner — it fails with a no-bids error and the auction stays active. -/
theorem C4_no_bid_settlement_counterexample :
    c4Auction.highestBidder = ""
    ∧ c4Auction.isActive = true
    ∧ c4Auction.deadline ≤ 10
    ∧ Base.endAuction c4StateBase "a1" 10 = .error .noBids :=
  ⟨rfl, rfl, by decide, rfl⟩

/-- C4 (corrected): in the English contract, `EndAuction` on an expired
auction with no accepted bid (`highestBidder = ""`) succeeds, leaves
`isAvailable` untouched (the resource stays eligible for a future auction)
and only clears `auctionStatus`; with an accepted bid it sets
`isAvailable = false`, and no later sequence of operations ever raises a
stored `isAvailable` from `false`.  In the base contract, `EndAuction` with
no bids instead fails with a no-bids error (see the counterexample). -/
theorem C4_settlement_availability :
    (∀ (s : EN.State) (rid : String) (now : Int) (a : EN.Auction) (v : EN.StoredV),
        s (auctionKey rid) = some (.auc a) → a.isActive = true → a.deadline ≤ now →
        a.resourceID = rid → s rid = some v → a.highestBidder = "" →
        ∃ s', EN.endAuction s rid now = .ok s'
          ∧ s' rid = some (.res { EN.decodeRes v with auctionStatus := false })
          ∧ s' (auctionKey rid) = some (.auc { a with isActive := false })
          ∧ EN.availAt s' rid = EN.availAt s rid)
    ∧ (∀ (s : EN.State) (rid : String) (now : Int) (a : EN.Auction) (v : EN.StoredV),
        s (auctionKey rid) = some (.auc a) → a.isActive = true → a.deadline ≤ now →
        a.resourceID = rid → s rid = some v → a.highestBidder ≠ "" →
        ∃ s', EN.endAuction s rid now = .ok s'
          ∧ s' rid = some (.res { EN.decodeRes v with auctionStatus := false, isAvailable := false })
          ∧ s' (auctionKey rid) = some (.auc { a with isActive := false })
          ∧ EN.availAt s' rid = some false)
    ∧ (∀ (s : EN.State) (rid : String) (ops : List (EN.Op × Int)),
        EN.availAt s rid = some false → EN.availAt (EN.run s ops) rid = some false) := by
  refine ⟨?_, ?_, ?_⟩
  · intro s rid now a v ha hact hdl hrid hv hnb
    subst hrid
    have hnd : ¬ a.deadline > now := not_lt.mpr hdl
    have hfa : EN.fetchAuction s a.resourceID = .ok a := by
      simp [EN.fetchAuction, ha, EN.decodeAuc]
    have hfr : EN.fetchResource s a.resourceID = .ok (EN.decodeRes v) := by
      simp [EN.fetchResource, hv]
    refine ⟨((s.put (auctionKey a.resourceID) (.auc { a with isActive := false })).put a.resourceID (.res { EN.decodeRes v with auctionStatus := false })).put (auctionKey a.resourceID) (.auc { a with isActive := false }), ?_, ?_, ?_, ?_⟩
    · simp [EN.endAuction, hfa, hfr, hact, if_neg hnd, hnb]
    · simp [EN.State.put, Ne.symm (auctionKey_ne a.resourceID)]
    · simp [EN.State.put]
    · rw [EN.availAt_put_auc, if_neg (Ne.symm (auctionKey_ne a.resourceID)),
        EN.availAt_put_res, if_pos rfl]
      unfold EN.availAt
      rw [hv]
      rfl
  · intro s rid now a v ha hact hdl hrid hv hwb
    subst hrid
    have hnd : ¬ a.deadline > now := not_lt.mpr hdl
    have hfa : EN.fetchAuction s a.resourceID = .ok a := by
      simp [EN.fetchAuction, ha, EN.decodeAuc]
    have hfr : EN.fetchResource s a.resourceID = .ok (EN.decodeRes v) := by
      simp [EN.fetchResource, hv]
    refine ⟨((s.put (auctionKey a.resourceID) (.auc { a with isActive := false })).put a.resourceID (.res { EN.decodeRes v with auctionStatus := false, isAvailable := false })).put (auctionKey a.resourceID) (.auc { a with isActive := false }), ?_, ?_, ?_, ?_⟩
    · simp [EN.endAuction, hfa, hfr, hact, if_neg hnd, hwb]
    · simp [EN.State.put, Ne.symm (auctionKey_ne a.resourceID)]
    · simp [EN.State.put]
    · rw [EN.availAt_put_auc, if_neg (Ne.symm (auctionKey_ne a.resourceID)),
        EN.availAt_put_res, if_pos rfl]
  · intro s rid ops h
    exact EN.run_preserves_unavail rid ops s h

/-- Witness for C4: a no-bid settlement keeps `isAvailable = true`, a one-bid
settlement sets it to `false`, and a later `StartAuction` + `SubmitResource`
sequence cannot raise it again. -/
theorem C4_settlement_availability_witness :
    (c4StateEN (auctionKey "r") = some (.auc c4AuctionEN)
      ∧ c4AuctionEN.isActive = true ∧ c4AuctionEN.deadline ≤ 10
      ∧ c4AuctionEN.resourceID = "r"
      ∧ c4StateEN "r" = some (.res ⟨100, 10, "gen", true, true⟩)
      ∧ c4AuctionEN.highestBidder = ""
      ∧ (∃ s', EN.endAuction c4StateEN "r" 10 = .ok s'
          ∧ s' "r" = some (.res { EN.decodeRes (.res ⟨100, 10, "gen", true, true⟩) with auctionStatus := false })
          ∧ s' (auctionKey "r") = some (.auc { c4AuctionEN with isActive := false })
          ∧ EN.availAt s' "r" = EN.availAt c4StateEN "r"))
    ∧ (c4AuctionEN2.highestBidder ≠ ""
      ∧ (∃ s', EN.endAuction c4StateEN2 "r" 10 = .ok s'
          ∧ s' "r" = some (.res { EN.decodeRes (.res ⟨100, 10, "gen", true, true⟩) with auctionStatus := false, isAvailable := false })
          ∧ s' (auctionKey "r") = some (.auc { c4AuctionEN2 with isActive := false })
          ∧ EN.availAt s' "r" = some false))
    ∧ (EN.availAt c4StateEN3 "r" = some false
      ∧ EN.availAt (EN.run c4StateEN3
          [(EN.Op.start "r" 5, 20), (EN.Op.submit "r" 1 1 "g", 21)]) "r" = some false) :=
  ⟨⟨by decide, rfl, by decide, rfl, by decide, rfl,
      C4_settlement_availability.1 c4StateEN "r" 10 c4AuctionEN
        (.res ⟨100, 10, "gen", true, true⟩) (by decide) rfl (by decide) rfl (by decide) rfl⟩,
    ⟨by decide,
      C4_settlement_availability.2.1 c4StateEN2 "r" 10 c4AuctionEN2
        (.res ⟨100, 10, "gen", true, true⟩) (by decide) rfl (by decide) rfl (by decide)
        (by decide)⟩,
    ⟨by decide,
      C4_settlement_availability.2.2 c4StateEN3 "r"
        [(EN.Op.start "r" 5, 20), (EN.Op.submit "r" 1 1 "g", 21)] (by decide)⟩⟩

/-- C5 counterexample: the base contract's `Bid` never consults the
resource's reserve price — a bid of 5, below the reserve 10 of resource
`"r"`, is accepted on an auction whose highest bid is 0. -/
theorem C5_reserve_check_counterexample :
    (5 : ℚ) ≤ (⟨100, 10, "gen"⟩ : Base.Resource).price
    ∧ c5StateBase "r" = some (.res ⟨100, 10, "gen"⟩)
    ∧ c5Auction.highestBid = 0
    ∧ Base.bid c5StateBase "a1" 5 "alice" 3
        = .ok (c5StateBase.put "a1" (.auc { c5Auction with highestBid := 5, highestBidder := "alice" })) :=
  ⟨by decide, by decide, rfl, rfl⟩

/-- C5 (corrected): in the English contract `Bid` rejects any amount at or
below the reserve price and any amount at or below the current highest bid,
and an accepted bid strictly exceeds and overwrites `highestBid`; the base
contract checks only the current highest bid, so sub-reserve amounts are
accepted there.  `EndAuction` preserves `highestBid`, and `StartAuction`
cannot overwrite a live auction (the resource's `auctionStatus` blocks it),
so `highestBid` never decreases over an auction's open lifetime. -/
theorem C5_bid_acceptance :
    (∀ (s : EN.State) (rid : String) (amt : ℚ) (caller : String) (now : Int)
        (a : EN.Auction) (r : EnergyResource),
        s (auctionKey rid) = some (.auc a) → s rid = some (.res r) →
        a.isActive = true → ¬ a.deadline < now →
        (amt ≤ r.price → EN.bid s rid amt caller now = .error .belowReserve)
        ∧ (r.price < amt → amt ≤ a.highestBid →
            EN.bid s rid amt caller now = .error .belowHighest)
        ∧ (r.price < amt → a.highestBid < amt →
            EN.bid s rid amt caller now
              = .ok (s.put (auctionKey rid) (.auc { a with highestBid := amt, highestBidder := caller }))))
    ∧ (∀ (s : Base.State) (k : String) (amt : ℚ) (caller : String) (now : Int)
        (a : Base.Auction),
        s k = some (.auc a) → a.isActive = true → ¬ a.deadline < now →
        (amt ≤ a.highestBid → Base.bid s k amt caller now = .error .belowHighest)
        ∧ (a.highestBid < amt →
            Base.bid s k amt caller now
              = .ok (s.put k (.auc { a with highestBid := amt, highestBidder := caller }))))
    ∧ (∀ (s : EN.State) (rid : String) (now : Int) (a : EN.Auction) (v : EN.StoredV),
        s (auctionKey rid) = some (.auc a) → a.isActive = true → a.deadline ≤ now →
        a.resourceID = rid → s rid = some v →
        ∃ s', EN.endAuction s rid now = .ok s'
          ∧ s' (auctionKey rid) = some (.auc { a with isActive := false }))
    ∧ (∀ (s : EN.State) (rid : String) (dur now : Int) (v : EN.StoredV),
        s rid = some v → (EN.decodeRes v).auctionStatus = true →
        EN.startAuction s rid dur now = .error .alreadyActive) := by
  refine ⟨?_, ?_, ?_, ?_⟩
  · intro s rid amt caller now a r ha hrs hact hdl
    have hfa : EN.fetchAuction s rid = .ok a := by
      simp [EN.fetchAuction, ha, EN.decodeAuc]
    have hfr : EN.fetchResource s rid = .ok r := by
      simp [EN.fetchResource, hrs, EN.decodeRes]
    refine ⟨?_, ?_, ?_⟩
    · intro hle
      simp [EN.bid, hfa, hfr, hact, if_neg hdl, hle]
    · intro hgt hle
      simp [EN.bid, hfa, hfr, hact, if_neg hdl, not_le.mpr hgt, hle]
    · intro hgt hgt2
      simp [EN.bid, hfa, hfr, hact, if_neg hdl, not_le.mpr hgt, not_le.mpr hgt2]
  · intro s k amt caller now a ha hact hdl
    have hfa : Base.fetchAuction s k = .ok a := by
      simp [Base.fetchAuction, ha, Base.decodeAuc]
    refine ⟨?_, ?_⟩
    · intro hle
      simp [Base.bid, hfa, hact, if_neg hdl, hle]
    · intro hgt
      simp [Base.bid, hfa, hact, if_neg hdl, not_le.mpr hgt]
  · intro s rid now a v ha hact hdl hrid hv
    subst hrid
    have hnd : ¬ a.deadline > now := not_lt.mpr hdl
    have hfa : EN.fetchAuction s a.resourceID = .ok a := by
      simp [EN.fetchAuction, ha, EN.decodeAuc]
    have hfr : EN.fetchResource s a.resourceID = .ok (EN.decodeRes v) := by
      simp [EN.fetchResource, hv]
    refine ⟨((s.put (auctionKey a.resourceID) (.auc { a with isActive := false })).put a.resourceID (.res { EN.decodeRes v with auctionStatus := false, isAvailable := if (a.highestBidder != "") = true then false else (EN.decodeRes v).isAvailable })).put (auctionKey a.resourceID) (.auc { a with isActive := false }), ?_, ?_⟩
    · simp [EN.endAuction, hfa, hfr, hact, if_neg hnd]
    · simp [EN.State.put]
  · intro s rid dur now v hv hstat
    simp [EN.startAuction, EN.fetchResource, hv, hstat]

/-- Witness for C5: over reserve 10 and highest bid 12, amounts 5 and 11 are
rejected and 20 is accepted and overwrites the leader; in the base contract a
bid of 5 over highest bid 0 is accepted despite the reserve 10; `EndAuction`
keeps `highestBid = 12`; `StartAuction` on the busy resource fails. -/
theorem C5_bid_acceptance_witness :
    (((5 : ℚ) ≤ 10 ∧ EN.bid c5StateEN "r" 5 "carol" 3 = .error .belowReserve)
      ∧ ((10 : ℚ) < 11 ∧ (11 : ℚ) ≤ 12 ∧ EN.bid c5StateEN "r" 11 "carol" 3 = .error .belowHighest)
      ∧ ((10 : ℚ) < 20 ∧ (12 : ℚ) < 20 ∧ EN.bid c5StateEN "r" 20 "carol" 3
          = .ok (c5StateEN.put (auctionKey "r") (.auc { c5AuctionEN with highestBid := 20, highestBidder := "carol" }))))
    ∧ ((0 : ℚ) < 5 ∧ Base.bid c5StateBase "a1" 5 "alice" 3
        = .ok (c5StateBase.put "a1" (.auc { c5Auction with highestBid := 5, highestBidder := "alice" })))
    ∧ (∃ s', EN.endAuction c5StateEN2 "r" 3 = .ok s'
        ∧ s' (auctionKey "r") = some (.auc { c5AuctionEN2 with isActive := false }))
    ∧ EN.startAuction c5StateEN "r" 5 3 = .error .alreadyActive :=
  ⟨⟨⟨by decide,
      (C5_bid_acceptance.1 c5StateEN "r" 5 "carol" 3 c5AuctionEN ⟨100, 10, "gen", true, true⟩
        (by decide) (by decide) rfl (by decide)).1 (by decide)⟩,
    ⟨by decide, by decide,
      (C5_bid_acceptance.1 c5StateEN "r" 11 "carol" 3 c5AuctionEN ⟨100, 10, "gen", true, true⟩
        (by decide) (by decide) rfl (by decide)).2.1 (by decide) (by decide)⟩,
    ⟨by decide, by decide,
      (C5_bid_acceptance.1 c5StateEN "r" 20 "carol" 3 c5AuctionEN ⟨100, 10, "gen", true, true⟩
        (by decide) (by decide) rfl (by decide)).2.2 (by decide) (by decide)⟩⟩,
  ⟨by decide,
    (C5_bid_acceptance.2.1 c5StateBase "a1" 5 "alice" 3 c5Auction
      (by decide) rfl (by decide)).2 (by decide)⟩,
  C5_bid_acceptance.2.2.1 c5StateEN2 "r" 3 c5AuctionEN2 (.res ⟨100, 10, "gen", true, true⟩)
    (by decide) rfl (by decide) rfl (by decide),
  C5_bid_acceptance.2.2.2 c5StateEN "r" 5 3 (.res ⟨100, 10, "gen", true, true⟩)
    (by decide) (by decide)⟩

/-- C6 counterexample: two failures of "exactly the resources, stable
ascending".  First, the flat variant's full-range scan also decodes auction
records — leniently, as the zero resource — so a store holding one resource
(price 5) and one open auction yields a spurious extra entry.  Second, on a
13-entry scan `sort.Slice` leaves its insertion-sort path and pdqsort
reorders the tied price 0 (volumes 0 and 11 swap), so the ordering is not
stable past 12 entries even in the composite-key variant. -/
theorem C6_merit_order_counterexample :
    (EN.getMeritOrder [.res c6Res5, .auc c6Auc]
        = [⟨0, 0, "", false, false⟩, c6Res5]
      ∧ EN.getMeritOrder [.res c6Res5, .auc c6Auc] ≠ [c6Res5])
    ∧ (c6bigScan.filter (fun x => x.price = 0)
        = [⟨0, 0, "t", true, false⟩, ⟨11, 0, "t", true, false⟩]
      ∧ (ENO.getMeritOrder c6bigScan).filter (fun x => x.price = 0)
        = [⟨11, 0, "t", true, false⟩, ⟨0, 0, "t", true, false⟩]
      ∧ (ENO.getMeritOrder c6bigScan).filter (fun x => x.price = 0)
        ≠ c6bigScan.filter (fun x => x.price = 0)) :=
  ⟨⟨by decide, by decide⟩, by decide, by decide, by decide⟩

/-- C6 (corrected): the merit order always returns a permutation of the
decoded scan, and on scans of at most 12 entries (the insertion-sort regime
of `sort.Slice`) it is exactly the stable ascending-by-price sort, ties in
scan order.  In the composite-key variant the scan holds exactly the resource
records; the flat variant sorts the lenient decoding of *every* stored value,
which coincides with the former only on stores containing no auction
records. -/
theorem C6_merit_order :
    (∀ scan : List EnergyResource, (ENO.getMeritOrder scan).Perm scan)
    ∧ (∀ scan : List EnergyResource, scan.length ≤ 12 →
        List.Sorted (fun x y : EnergyResource => x.price ≤ y.price) (ENO.getMeritOrder scan)
        ∧ (∀ q : ℚ, (ENO.getMeritOrder scan).filter (fun x => x.price = q)
              = scan.filter (fun x => x.price = q)))
    ∧ (∀ scan : List EN.StoredV,
        EN.getMeritOrder scan = ENO.getMeritOrder (scan.map EN.decodeRes))
    ∧ (∀ l : List EnergyResource,
        EN.getMeritOrder (l.map EN.StoredV.res) = ENO.getMeritOrder l) := by
  refine ⟨?_, ?_, ?_, ?_⟩
  · intro scan
    exact goSortSlice_perm _ scan
  · intro scan hlen
    have heq : ENO.getMeritOrder scan
        = List.insertionSort
            (goStableOf (fun x y : EnergyResource => decide (x.price < y.price))) scan :=
      goSortSlice_of_short _ scan hlen
    constructor
    · rw [heq]
      haveI : IsTotal EnergyResource
          (goStableOf (fun x y : EnergyResource => decide (x.price < y.price))) :=
        ⟨fun a b => by
          rcases le_total a.price b.price with hle | hle
          · exact Or.inl (decide_eq_false (not_lt.mpr hle))
          · exact Or.inr (decide_eq_false (not_lt.mpr hle))⟩
      haveI : IsTrans EnergyResource
          (goStableOf (fun x y : EnergyResource => decide (x.price < y.price))) :=
        ⟨fun a b c hab hbc => decide_eq_false (not_lt.mpr (le_trans
            (not_lt.mp (of_decide_eq_false hab)) (not_lt.mp (of_decide_eq_false hbc))))⟩
      exact List.Pairwise.imp
        (fun h => not_lt.mp (of_decide_eq_false h))
        (List.sorted_insertionSort
          (goStableOf (fun x y : EnergyResource => decide (x.price < y.price))) scan)
    · intro q
      rw [heq]
      exact filter_insertionSort (fun x : EnergyResource => x.price)
        (goStableOf (fun x y : EnergyResource => decide (x.price < y.price)))
        (fun x y hxy => ne_of_lt (by simpa [goStableOf] using hxy)) q scan
  · intro scan
    rfl
  · intro l
    show goSortSlice _ ((l.map EN.StoredV.res).map EN.decodeRes) = goSortSlice _ l
    rw [List.map_map]
    have hid : EN.decodeRes ∘ EN.StoredV.res = id := funext fun _ => rfl
    rw [hid, List.map_id]

/-- Witness for C6: over resources with prices `[5, 1, 3]` (three entries, so
inside the stable regime), both variants return them ordered `[1, 3, 5]`, and
that output satisfies the permutation, sortedness and stability properties. -/
theorem C6_merit_order_witness :
    (ENO.getMeritOrder [c6r5, c6r1, c6r3]).Perm [c6r5, c6r1, c6r3]
    ∧ ([c6r5, c6r1, c6r3] : List EnergyResource).length ≤ 12
    ∧ (List.Sorted (fun x y : EnergyResource => x.price ≤ y.price)
        (ENO.getMeritOrder [c6r5, c6r1, c6r3])
      ∧ (∀ q : ℚ, (ENO.getMeritOrder [c6r5, c6r1, c6r3]).filter (fun x => x.price = q)
            = [c6r5, c6r1, c6r3].filter (fun x => x.price = q)))
    ∧ ENO.getMeritOrder [c6r5, c6r1, c6r3] = [c6r1, c6r3, c6r5]
    ∧ EN.getMeritOrder [.res c6r5, .res c6r1, .res c6r3] = [c6r1, c6r3, c6r5] :=
  ⟨C6_merit_order.1 [c6r5, c6r1, c6r3], by decide,
    C6_merit_order.2.1 [c6r5, c6r1, c6r3] (by decide), by decide, by decide⟩

/-- C7 (confirmed): `EndAuction` called strictly before the deadline fails
with the not-yet-expired error, on a closed auction fails with the not-active
error (both in the specification's `InvalidState` family, with no write in
either case), and a second `EndAuction` on an auction just closed by a
successful first call fails with the not-active error — in both the
second-price and the English contract. -/
theorem C7_end_auction_guards :
    (Err.notExpired.isInvalidState = true ∧ Err.notActive.isInvalidState = true)
    ∧ (∀ (s : SP.State) (rid : String) (now : Int) (a : SP.Auction),
        s (auctionKey rid) = some (.auc a) → a.isActive = true → now < a.deadline →
        SP.endAuction s rid now = .error .notExpired)
    ∧ (∀ (s : SP.State) (rid : String) (now : Int) (a : SP.Auction),
        s (auctionKey rid) = some (.auc a) → a.isActive = false →
        SP.endAuction s rid now = .error .notActive)
    ∧ (∀ (s : SP.State) (rid : String) (now now' : Int) (s' : SP.State),
        SP.endAuction s rid now = .ok s' →
        SP.endAuction s' rid now' = .error .notActive)
    ∧ (∀ (s : EN.State) (rid : String) (now : Int) (a : EN.Auction),
        s (auctionKey rid) = some (.auc a) → a.isActive = true → now < a.deadline →
        EN.endAuction s rid now = .error .notExpired)
    ∧ (∀ (s : EN.State) (rid : String) (now : Int) (a : EN.Auction),
        s (auctionKey rid) = some (.auc a) → a.isActive = false →
        EN.endAuction s rid now = .error .notActive)
    ∧ (∀ (s : EN.State) (rid : String) (now now' : Int) (s' : EN.State),
        EN.endAuction s rid now = .ok s' →
        EN.endAuction s' rid now' = .error .notActive) := by
  refine ⟨⟨rfl, rfl⟩, ?_, ?_, ?_, ?_, ?_, ?_⟩
  · intro s rid now a ha hact hlt
    have hfa : SP.fetchAuction s rid = .ok a := by
      simp [SP.fetchAuction, ha, SP.decodeAuc]
    simp [SP.endAuction, hfa, hact, hlt]
  · intro s rid now a ha hinact
    have hfa : SP.fetchAuction s rid = .ok a := by
      simp [SP.fetchAuction, ha, SP.decodeAuc]
    simp [SP.endAuction, hfa, hinact]
  · intro s rid now now' s' heq
    unfold SP.endAuction at heq
    cases hfa : SP.fetchAuction s rid with
    | error e => rw [hfa] at heq; exact Except.noConfusion heq
    | ok a =>
        rw [hfa] at heq
        by_cases hact : a.isActive
        · by_cases hdl : a.deadline > now
          · simp [hact, hdl] at heq
          · cases hv : s a.resourceID with
            | none => simp [hact, hdl, SP.fetchResource, hv] at heq
            | some v =>
                simp only [hact, hdl, SP.fetchResource, hv, Bool.not_true,
                  Bool.false_eq_true, if_false, ite_false, ite_true] at heq
                cases hsort : SP.sortBidsDesc a.bids with
                | nil =>
                    rw [hsort] at heq
                    injection heq with hF
                    subst hF
                    simp [SP.endAuction, SP.fetchAuction_put_last_sp]
                | cons b0 rest =>
                    rw [hsort] at heq
                    injection heq with hF
                    subst hF
                    simp [SP.endAuction, SP.fetchAuction_put_last_sp]
        · simp [hact] at heq
  · intro s rid now a ha hact hlt
    have hfa : EN.fetchAuction s rid = .ok a := by
      simp [EN.fetchAuction, ha, EN.decodeAuc]
    simp [EN.endAuction, hfa, hact, hlt]
  · intro s rid now a ha hinact
    have hfa : EN.fetchAuction s rid = .ok a := by
      simp [EN.fetchAuction, ha, EN.decodeAuc]
    simp [EN.endAuction, hfa, hinact]
  · intro s rid now now' s' heq
    unfold EN.endAuction at heq
    cases hfa : EN.fetchAuction s rid with
    | error e => rw [hfa] at heq; exact Except.noConfusion heq
    | ok a =>
        rw [hfa] at heq
        by_cases hact : a.isActive
        · by_cases hdl : a.deadline > now
          · simp [hact, hdl] at heq
          · cases hv : s a.resourceID with
            | none => simp [hact, hdl, EN.fetchResource, hv] at heq
            | some v =>
                simp only [hact, hdl, EN.fetchResource, hv, Bool.not_true,
                  Bool.false_eq_true, if_false, ite_false, ite_true] at heq
                injection heq with hF
                subst hF
                simp [EN.endAuction, EN.fetchAuction_put_last_en]
        · simp [hact] at heq

/-- Witness for C7: an early close at time 3 (deadline 100) and a close on an
already-closed auction both fail with `InvalidState`-family errors, and after
a successful close at time 10 a second close at time 11 fails — in both
contracts. -/
theorem C7_end_auction_guards_witness :
    ((3 : Int) < c7AuctionSP.deadline ∧ SP.endAuction c7StateSP "r" 3 = .error .notExpired)
    ∧ (c7AuctionSP2.isActive = false ∧ SP.endAuction c7StateSP2 "r" 200 = .error .notActive)
    ∧ (∃ s', SP.endAuction c7StateSP3 "r" 10 = .ok s'
        ∧ SP.endAuction s' "r" 11 = .error .notActive)
    ∧ ((3 : Int) < c7AuctionEN.deadline ∧ EN.endAuction c7StateEN "r" 3 = .error .notExpired)
    ∧ (c7AuctionEN2.isActive = false ∧ EN.endAuction c7StateEN2 "r" 200 = .error .notActive)
    ∧ (∃ s', EN.endAuction c7StateEN3 "r" 10 = .ok s'
        ∧ EN.endAuction s' "r" 11 = .error .notActive) :=
  ⟨⟨by decide,
      C7_end_auction_guards.2.1 c7StateSP "r" 3 c7AuctionSP (by decide) rfl (by decide)⟩,
    ⟨rfl, C7_end_auction_guards.2.2.1 c7StateSP2 "r" 200 c7AuctionSP2 (by decide) rfl⟩,
    ⟨_, rfl, C7_end_auction_guards.2.2.2.1 c7StateSP3 "r" 10 11 _ rfl⟩,
    ⟨by decide,
      C7_end_auction_guards.2.2.2.2.1 c7StateEN "r" 3 c7AuctionEN (by decide) rfl (by decide)⟩,
    ⟨rfl, C7_end_auction_guards.2.2.2.2.2.1 c7StateEN2 "r" 200 c7AuctionEN2 (by decide) rfl⟩,
    ⟨_, rfl, C7_end_auction_guards.2.2.2.2.2.2 c7StateEN3 "r" 10 11 _ rfl⟩⟩

/-- C8 (confirmed): submitting a resource id that is already taken fails with
`AlreadyExists` and writes nothing; a fresh submission writes exactly one
record, carrying the given volume, price and type with `isAvailable = true`
and `auctionStatus = false` — in both the second-price and the English
contract. -/
theorem C8_submit_resource :
    (∀ (s : SP.State) (rid : String) (vol price : ℚ) (ty : String) (v : SP.StoredV),
        s rid = some v →
        SP.submitEnergyResource s rid vol price ty = .error .alreadyExists)
    ∧ (∀ (s : SP.State) (rid : String) (vol price : ℚ) (ty : String),
        s rid = none →
        ∃ s', SP.submitEnergyResource s rid vol price ty = .ok s'
          ∧ s' rid = some (.res ⟨vol, price, ty, true, false⟩)
          ∧ (∀ k, k ≠ rid → s' k = s k))
    ∧ (∀ (s : EN.State) (rid : String) (vol price : ℚ) (ty : String) (v : EN.StoredV),
        s rid = some v →
        EN.submitEnergyResource s rid vol price ty = .error .alreadyExists)
    ∧ (∀ (s : EN.State) (rid : String) (vol price : ℚ) (ty : String),
        s rid = none →
        ∃ s', EN.submitEnergyResource s rid vol price ty = .ok s'
          ∧ s' rid = some (.res ⟨vol, price, ty, true, false⟩)
          ∧ (∀ k, k ≠ rid → s' k = s k)) := by
  refine ⟨?_, ?_, ?_, ?_⟩
  · intro s rid vol price ty v h
    simp [SP.submitEnergyResource, h]
  · intro s rid vol price ty h
    refine ⟨s.put rid (.res ⟨vol, price, ty, true, false⟩), ?_, ?_, ?_⟩
    · simp [SP.submitEnergyResource, h]
    · simp [SP.State.put]
    · intro k hk
      simp [SP.State.put, hk]
  · intro s rid vol price ty v h
    simp [EN.submitEnergyResource, h]
  · intro s rid vol price ty h
    refine ⟨s.put rid (.res ⟨vol, price, ty, true, false⟩), ?_, ?_, ?_⟩
    · simp [EN.submitEnergyResource, h]
    · simp [EN.State.put]
    · intro k hk
      simp [EN.State.put, hk]

/-- Witness for C8: resubmitting taken id `"r"` fails, submitting fresh id
`"r2"` writes exactly the one new record. -/
theorem C8_submit_resource_witness :
    (c8StateSP "r" = some (.res ⟨1, 2, "t", true, false⟩)
      ∧ SP.submitEnergyResource c8StateSP "r" 7 8 "u" = .error .alreadyExists)
    ∧ (c8StateSP "r2" = none
      ∧ (∃ s', SP.submitEnergyResource c8StateSP "r2" 7 8 "u" = .ok s'
          ∧ s' "r2" = some (.res ⟨7, 8, "u", true, false⟩)
          ∧ (∀ k, k ≠ "r2" → s' k = c8StateSP k)))
    ∧ (c8StateEN "r" = some (.res ⟨1, 2, "t", true, false⟩)
      ∧ EN.submitEnergyResource c8StateEN "r" 7 8 "u" = .error .alreadyExists)
    ∧ (c8StateEN "r2" = none
      ∧ (∃ s', EN.submitEnergyResource c8StateEN "r2" 7 8 "u" = .ok s'
          ∧ s' "r2" = some (.res ⟨7, 8, "u", true, false⟩)
          ∧ (∀ k, k ≠ "r2" → s' k = c8StateEN k))) :=
  ⟨⟨by decide, C8_submit_resource.1 c8StateSP "r" 7 8 "u" (.res ⟨1, 2, "t", true, false⟩)
      (by decide)⟩,
    ⟨by decide, C8_submit_resource.2.1 c8StateSP "r2" 7 8 "u" (by decide)⟩,
    ⟨by decide, C8_submit_resource.2.2.1 c8StateEN "r" 7 8 "u" (.res ⟨1, 2, "t", true, false⟩)
      (by decide)⟩,
    ⟨by decide, C8_submit_resource.2.2.2 c8StateEN "r2" 7 8 "u" (by decide)⟩⟩

/-- Splitting a character list at a separator that occurs in neither suffix
is unambiguous. -/
theorem append_colon_inj :
    ∀ (l1 r1 l2 r2 : List Char), ':' ∉ r1 → ':' ∉ r2 →
      l1 ++ ':' :: r1 = l2 ++ ':' :: r2 → l1 = l2 ∧ r1 = r2
  | [], r1, [], r2, _, _, he => by
      rw [List.nil_append, List.nil_append] at he
      injection he with _ h
      exact ⟨rfl, h⟩
  | [], r1, c :: l2, r2, h1, _, he => by
      rw [List.nil_append, List.cons_append] at he
      injection he with hc hr
      exact absurd (hr ▸ List.mem_append_right l2 (List.mem_cons_self ':' _)) h1
  | c :: l1, r1, [], r2, _, h2, he => by
      rw [List.nil_append, List.cons_append] at he
      injection he with hc hr
      exact absurd (hr ▸ List.mem_append_right l1 (List.mem_cons_self ':' _)) h2
  | c :: l1, r1, d :: l2, r2, h1, h2, he => by
      rw [List.cons_append, List.cons_append] at he
      injection he with hc hr
      obtain ⟨hl, hrr⟩ := append_colon_inj l1 r1 l2 r2 h1 h2 hr
      exact ⟨by rw [hc, hl], hrr⟩

/-- Two bid ids for the same resource coincide only if the bidder strings
and the decimal renderings of the timestamps coincide (the renderings never
contain the `:` separator). -/
theorem SP.mkBidID_inj (rid c1 c2 : String) (t1 t2 : Int)
    (h1 : ':' ∉ (toString t1).data) (h2 : ':' ∉ (toString t2).data)
    (he : SP.mkBidID rid c1 t1 = SP.mkBidID rid c2 t2) :
    c1 = c2 ∧ toString t1 = toString t2 := by
  have hd := congrArg String.data he
  have hcolon : (":" : String).data = [':'] := rfl
  simp only [SP.mkBidID, String.data_append, hcolon, List.append_assoc,
    List.singleton_append] at hd
  have hd2 := List.append_cancel_left hd
  injection hd2 with _ hd3
  obtain ⟨hc, ht⟩ := append_colon_inj c1.data (toString t1).data c2.data (toString t2).data
    h1 h2 hd3
  exact ⟨String.ext hc, String.ext ht⟩

/-- C9 counterexample: the same bidder placing two bids within one timestamp
(two transactions in the same second) produces two recorded bids carrying the
*same* `bidID` — the id is not unique within the auction's bid sequence. -/
theorem C9_bid_id_counterexample :
    ((SP.bid c9State "r" 11 "alice" 3).bind (fun s1 => SP.bid s1 "r" 12 "alice" 3)).map
        (fun s2 => (s2 (auctionKey "r")).map (fun v => (SP.decodeAuc v).bids.map SP.Bid.bidID))
      = .ok (some ["auction:r:alice:3", "auction:r:alice:3"])
    ∧ ¬ (["auction:r:alice:3", "auction:r:alice:3"] : List String).Nodup :=
  ⟨by decide, by decide⟩

/-- C9 (corrected): an accepted second-price bid appends exactly one record
whose `bidID` is derived from the auction key, the caller identity and the
timestamp; bid ids collide only when both the bidder and the timestamp
rendering coincide; and settlement only permutes the recorded bids, never
modifying or dropping a record. -/
theorem C9_bid_id :
    (∀ (s : SP.State) (rid : String) (amt : ℚ) (caller : String) (now : Int)
        (a : SP.Auction) (r : EnergyResource),
        s (auctionKey rid) = some (.auc a) → s rid = some (.res r) →
        a.isActive = true → ¬ a.deadline < now → r.price < amt →
        ∃ s', SP.bid s rid amt caller now = .ok s'
          ∧ s' (auctionKey rid)
              = some (.auc { a with bids := a.bids ++ [⟨SP.mkBidID rid caller now, rid, caller, amt, now⟩] }))
    ∧ (∀ (rid c1 c2 : String) (t1 t2 : Int),
        ':' ∉ (toString t1).data → ':' ∉ (toString t2).data →
        SP.mkBidID rid c1 t1 = SP.mkBidID rid c2 t2 →
        c1 = c2 ∧ toString t1 = toString t2)
    ∧ (∀ (s : SP.State) (rid : String) (now : Int) (a : SP.Auction),
        s (auctionKey rid) = some (.auc a) → a.isActive = true → a.deadline ≤ now →
        (s a.resourceID).isSome →
        ∃ s' a', SP.endAuction s rid now = .ok s'
          ∧ s' (auctionKey rid) = some (.auc a')
          ∧ a'.bids.Perm a.bids) := by
  refine ⟨?_, ?_, ?_⟩
  · intro s rid amt caller now a r ha hrs hact hdl hamt
    have hfa : SP.fetchAuction s rid = .ok a := by
      simp [SP.fetchAuction, ha, SP.decodeAuc]
    have hfr : SP.fetchResource s rid = .ok r := by
      simp [SP.fetchResource, hrs, SP.decodeRes]
    refine ⟨s.put (auctionKey rid) (.auc { a with bids := a.bids ++ [⟨SP.mkBidID rid caller now, rid, caller, amt, now⟩] }), ?_, ?_⟩
    · simp [SP.bid, hfa, hfr, hact, if_neg hdl, not_le.mpr hamt]
    · simp [SP.State.put]
  · exact fun rid c1 c2 t1 t2 h1 h2 he => SP.mkBidID_inj rid c1 c2 t1 t2 h1 h2 he
  · intro s rid now a ha hact hdl hres
    obtain ⟨v, hv⟩ := Option.isSome_iff_exists.mp hres
    have hnd : ¬ a.deadline > now := not_lt.mpr hdl
    have hfa : SP.fetchAuction s rid = .ok a := by
      simp [SP.fetchAuction, ha, SP.decodeAuc]
    have hfr : SP.fetchResource s a.resourceID = .ok (SP.decodeRes v) := by
      simp [SP.fetchResource, hv]
    cases hsort : SP.sortBidsDesc a.bids with
    | nil =>
        refine ⟨(s.put a.resourceID (.res { SP.decodeRes v with auctionStatus := false })).put (auctionKey rid) (.auc { a with bids := ([] : List SP.Bid), isActive := false }),
          { a with bids := ([] : List SP.Bid), isActive := false }, ?_, ?_, ?_⟩
        · simp [SP.endAuction, hfa, hfr, hact, if_neg hnd, hsort]
        · simp [SP.State.put]
        · show List.Perm ([] : List SP.Bid) a.bids
          have := sortBidsDesc_perm a.bids
          rw [hsort] at this
          exact this
    | cons b0 rest =>
        refine ⟨(s.put a.resourceID (.res { SP.decodeRes v with auctionStatus := false, isAvailable := false })).put (auctionKey rid) (.auc { a with bids := b0 :: rest, isActive := false, winnerID := b0.bidder, winnerPrice := (match rest with | [] => b0.bidPrice | b1 :: _ => b1.bidPrice) }),
          { a with bids := b0 :: rest, isActive := false, winnerID := b0.bidder, winnerPrice := (match rest with | [] => b0.bidPrice | b1 :: _ => b1.bidPrice) }, ?_, ?_, ?_⟩
        · cases rest <;> simp [SP.endAuction, hfa, hfr, hact, if_neg hnd, hsort]
        · simp [SP.State.put]
        · show List.Perm (b0 :: rest) a.bids
          rw [← hsort]
          exact sortBidsDesc_perm a.bids

/-- Witness for C9: the accepted bid of 11 by `"alice"` at time 3 appends the
record with id `"auction:r:alice:3"`; the id-collision lemma applied at equal
inputs; settlement of the one-bid auction keeps its single record. -/
theorem C9_bid_id_witness :
    ((⟨100, 1, "gen", true, true⟩ : EnergyResource).price < 11
      ∧ (∃ s', SP.bid c9State "r" 11 "alice" 3 = .ok s'
          ∧ s' (auctionKey "r")
              = some (.auc { c9Auction with bids := c9Auction.bids ++ [⟨SP.mkBidID "r" "alice" 3, "r", "alice", 11, 3⟩] })))
    ∧ (':' ∉ (toString (3 : Int)).data
      ∧ ("alice" = "alice" ∧ toString (3 : Int) = toString (3 : Int)))
    ∧ (c9Auction2.deadline ≤ 10
      ∧ (∃ s' a', SP.endAuction c9State2 "r" 10 = .ok s'
          ∧ s' (auctionKey "r") = some (.auc a')
          ∧ a'.bids.Perm c9Auction2.bids)) :=
  ⟨⟨by decide,
      C9_bid_id.1 c9State "r" 11 "alice" 3 c9Auction ⟨100, 1, "gen", true, true⟩
        (by decide) (by decide) rfl (by decide) (by decide)⟩,
    ⟨by decide,
      C9_bid_id.2.1 "r" "alice" "alice" 3 3 (by decide) (by decide) rfl⟩,
    ⟨by decide,
      C9_bid_id.2.2 c9State2 "r" 10 c9Auction2 (by decide) rfl (by decide) (by decide)⟩⟩

/-- C10 (confirmed): `StartAuction` performs no validation of `duration` —
for every integer duration, including zero and negative values, it succeeds
on an available, un-auctioned resource and writes an active auction with
`deadline = now + duration`; with a negative duration the deadline is already
past, and such an auction can never record a bid: any `Bid` either fails or
lazily closes the auction, leaving the bid data empty/unchanged, and a closed
auction rejects every bid. -/
theorem C10_start_auction_no_duration_validation :
    (∀ (s : SP.State) (rid : String) (dur now : Int) (r : EnergyResource),
        s rid = some (.res r) → r.auctionStatus = false → r.isAvailable = true →
        SP.startAuction s rid dur now
          = .ok ((s.put rid (.res { r with auctionStatus := true })).put (auctionKey rid) (.auc ⟨"", rid, now + dur, [], "", 0, true⟩)))
    ∧ (∀ (s : EN.State) (rid : String) (dur now : Int) (r : EnergyResource),
        s rid = some (.res r) → r.auctionStatus = false → r.isAvailable = true →
        EN.startAuction s rid dur now
          = .ok ((s.put rid (.res { r with auctionStatus := true })).put (auctionKey rid) (.auc ⟨"", rid, now + dur, 0, "", true⟩)))
    ∧ (∀ (s : SP.State) (rid : String) (a : SP.Auction) (amt : ℚ) (caller : String) (t : Int),
        s (auctionKey rid) = some (.auc a) → a.bids = [] → a.deadline < t →
        ∀ s'', SP.bid s rid amt caller t = .ok s'' →
          (s'' (auctionKey rid)).map (fun v => (SP.decodeAuc v).bids) = some []
          ∧ (s'' (auctionKey rid)).map (fun v => (SP.decodeAuc v).isActive) = some false)
    ∧ (∀ (s : SP.State) (rid : String) (a : SP.Auction) (amt : ℚ) (caller : String) (t : Int),
        s (auctionKey rid) = some (.auc a) → a.isActive = false →
        ∃ e, SP.bid s rid amt caller t = .error e)
    ∧ (∀ (s : EN.State) (rid : String) (a : EN.Auction) (amt : ℚ) (caller : String) (t : Int),
        s (auctionKey rid) = some (.auc a) → a.deadline < t →
        ∀ s'', EN.bid s rid amt caller t = .ok s'' →
          (s'' (auctionKey rid)).map (fun v => (EN.decodeAuc v).highestBid) = some a.highestBid
          ∧ (s'' (auctionKey rid)).map (fun v => (EN.decodeAuc v).highestBidder)
              = some a.highestBidder
          ∧ (s'' (auctionKey rid)).map (fun v => (EN.decodeAuc v).isActive) = some false) := by
  refine ⟨?_, ?_, ?_, ?_, ?_⟩
  · intro s rid dur now r hr hstat hav
    have hfr : SP.fetchResource s rid = .ok r := by
      simp [SP.fetchResource, hr, SP.decodeRes]
    simp [SP.startAuction, hfr, hstat, hav]
  · intro s rid dur now r hr hstat hav
    have hfr : EN.fetchResource s rid = .ok r := by
      simp [EN.fetchResource, hr, EN.decodeRes]
    simp [EN.startAuction, hfr, hstat, hav]
  · intro s rid a amt caller t ha hbids hdl s'' heq
    have hfa : SP.fetchAuction s rid = .ok a := by
      simp [SP.fetchAuction, ha, SP.decodeAuc]
    unfold SP.bid at heq
    rw [hfa] at heq
    cases hv : s rid with
    | none => simp [SP.fetchResource, hv] at heq
    | some vr =>
        by_cases hle : amt ≤ (SP.decodeRes vr).price
        · simp [SP.fetchResource, hv, hle] at heq
        · by_cases hact : a.isActive
          · simp only [SP.fetchResource, hv, hle, hact, Bool.not_true, Bool.false_eq_true,
              if_false, ite_false, ite_true, if_pos hdl] at heq
            unfold SP.endAuction at heq
            rw [hfa] at heq
            cases hv2 : s a.resourceID with
            | none =>
                simp [hact, if_neg (lt_asymm hdl), SP.fetchResource, hv2] at heq
            | some v2 =>
                simp only [hact, Bool.not_true, Bool.false_eq_true, if_false, ite_false,
                  ite_true, if_neg (lt_asymm hdl), SP.fetchResource, hv2] at heq
                rw [hbids] at heq
                simp only [show SP.sortBidsDesc [] = ([] : List SP.Bid) from rfl] at heq
                injection heq with hF
                subst hF
                constructor <;> simp [SP.State.put, SP.decodeAuc]
          · simp [SP.fetchResource, hv, hle, hact] at heq
  · intro s rid a amt caller t ha hinact
    have hfa : SP.fetchAuction s rid = .ok a := by
      simp [SP.fetchAuction, ha, SP.decodeAuc]
    cases hv : s rid with
    | none =>
        exact ⟨.notFound, by simp [SP.bid, hfa, SP.fetchResource, hv]⟩
    | some vr =>
        by_cases hle : amt ≤ (SP.decodeRes vr).price
        · exact ⟨.belowReserve, by simp [SP.bid, hfa, SP.fetchResource, hv, hle]⟩
        · exact ⟨.notActive, by simp [SP.bid, hfa, SP.fetchResource, hv, hle, hinact]⟩
  · intro s rid a amt caller t ha hdl s'' heq
    have hfa : EN.fetchAuction s rid = .ok a := by
      simp [EN.fetchAuction, ha, EN.decodeAuc]
    unfold EN.bid at heq
    rw [hfa] at heq
    cases hv : s rid with
    | none => simp [EN.fetchResource, hv] at heq
    | some vr =>
        by_cases hact : a.isActive
        · simp only [EN.fetchResource, hv, hact, Bool.not_true, Bool.false_eq_true,
            if_false, ite_false, ite_true, if_pos hdl] at heq
          unfold EN.endAuction at heq
          rw [hfa] at heq
          cases hv2 : s a.resourceID with
          | none =>
              simp [hact, if_neg (lt_asymm hdl), EN.fetchResource, hv2] at heq
          | some v2 =>
              simp only [hact, Bool.not_true, Bool.false_eq_true, if_false, ite_false,
                ite_true, if_neg (lt_asymm hdl), EN.fetchResource, hv2] at heq
              injection heq with hF
              subst hF
              refine ⟨?_, ?_, ?_⟩ <;> simp [EN.State.put, EN.decodeAuc]
        · simp [EN.fetchResource, hv, hact] at heq

/-- Witness for C10: starting with duration `-5` at time 10 succeeds and
writes deadline 5; on the resulting state, a bid of 50 at time 10 closes the
auction with no bid recorded, the closed auction rejects a further bid, and
the English variant likewise keeps `highestBid = 0` and no leader. -/
theorem C10_start_auction_no_duration_validation_witness :
    (SP.startAuction c10StateSP "r" (-5) 10
        = .ok ((c10StateSP.put "r" (.res { (⟨100, 1, "gen", true, false⟩ : EnergyResource) with auctionStatus := true })).put (auctionKey "r") (.auc ⟨"", "r", 10 + (-5), [], "", 0, true⟩)))
    ∧ (EN.startAuction c10StateEN "r" (-5) 10
        = .ok ((c10StateEN.put "r" (.res { (⟨100, 1, "gen", true, false⟩ : EnergyResource) with auctionStatus := true })).put (auctionKey "r") (.auc ⟨"", "r", 10 + (-5), 0, "", true⟩)))
    ∧ ((10 + (-5) : Int) < 10
      ∧ (∀ s'', SP.bid c10StateSP2 "r" 50 "alice" 10 = .ok s'' →
          (s'' (auctionKey "r")).map (fun v => (SP.decodeAuc v).bids) = some []
          ∧ (s'' (auctionKey "r")).map (fun v => (SP.decodeAuc v).isActive) = some false))
    ∧ ((∃ e, SP.bid (c10StateSP2.put (auctionKey "r") (.auc ⟨"", "r", 10 + (-5), [], "", 0, false⟩)) "r" 50 "alice" 11 = .error e))
    ∧ (∀ s'', EN.bid c10StateEN2 "r" 50 "alice" 10 = .ok s'' →
        (s'' (auctionKey "r")).map (fun v => (EN.decodeAuc v).highestBid) = some (0 : ℚ)
        ∧ (s'' (auctionKey "r")).map (fun v => (EN.decodeAuc v).highestBidder) = some ""
        ∧ (s'' (auctionKey "r")).map (fun v => (EN.decodeAuc v).isActive) = some false) :=
  ⟨C10_start_auction_no_duration_validation.1 c10StateSP "r" (-5) 10
      ⟨100, 1, "gen", true, false⟩ (by decide) rfl rfl,
    C10_start_auction_no_duration_validation.2.1 c10StateEN "r" (-5) 10
      ⟨100, 1, "gen", true, false⟩ (by decide) rfl rfl,
    ⟨by decide,
      C10_start_auction_no_duration_validation.2.2.1 c10StateSP2 "r"
        ⟨"", "r", 10 + (-5), [], "", 0, true⟩ 50 "alice" 10 (by decide) rfl (by decide)⟩,
    C10_start_auction_no_duration_validation.2.2.2.1
      (c10StateSP2.put (auctionKey "r") (.auc ⟨"", "r", 10 + (-5), [], "", 0, false⟩)) "r"
      ⟨"", "r", 10 + (-5), [], "", 0, false⟩ 50 "alice" 11 (by decide) rfl,
    C10_start_auction_no_duration_validation.2.2.2.2 c10StateEN2 "r"
      ⟨"", "r", 10 + (-5), 0, "", true⟩ 50 "alice" 10 (by decide) (by decide)⟩
